import Mathlib

/-!
Verification of the client-storage adapter library: the cookie service
(`src/app/services/cookie.service.ts`), the localStorage service and the
sessionStorage service.  Strings are embedded as `List Char`; the browser
context is embedded as an `Option` state (`none` = no `window`/`document`);
JavaScript's JSON values are embedded as the inductive `JsonValue`
(numbers restricted to integers: floating point is outside the scope of
this embedding).
-/

set_option maxRecDepth 4000

abbrev LC := List Char

def strToLC (s : String) : LC := s.toList

/-- The double-quote character. -/
def quoteChar : Char := Char.ofNat 34

/-- The backslash character. -/
def backslashChar : Char := Char.ofNat 92

/-- The left curly-brace character. -/
def lbraceChar : Char := Char.ofNat 123

/-- The right curly-brace character. -/
def rbraceChar : Char := Char.ofNat 125

/-- JavaScript `String.prototype.trim` whitespace (ASCII part: space and
the control characters 9–13). -/
def isJsWs (c : Char) : Bool := c.toNat = 32 || (9 ≤ c.toNat && c.toNat ≤ 13)

/-- JSON's insignificant whitespace characters (space, tab, LF, CR). -/
def isJsonWs (c : Char) : Bool :=
  c.toNat = 32 || c.toNat = 9 || c.toNat = 10 || c.toNat = 13

/-- `String.prototype.split` with a single-character separator. -/
def splitOnChar (sep : Char) : LC → List LC
  | [] => [[]]
  | c :: cs =>
    match splitOnChar sep cs with
    | [] => [[]]
    | h :: t => if c = sep then [] :: h :: t else (c :: h) :: t

def dropLeadingWs (l : LC) : LC := l.dropWhile isJsWs

def dropTrailingWs (l : LC) : LC := (l.reverse.dropWhile isJsWs).reverse

/-- JavaScript `String.prototype.trim` (ASCII whitespace). -/
def trimChars (l : LC) : LC := dropTrailingWs (dropLeadingWs l)

/-- Does `s` start with `p`?  (JavaScript `s.indexOf(p) === 0`.) -/
def listStartsWith (p s : LC) : Bool :=
  match p, s with
  | [], _ => true
  | _ :: _, [] => false
  | a :: ps, b :: ss => a = b && listStartsWith ps ss

/-- Uppercase hexadecimal digit, as produced by `encodeURIComponent` escapes. -/
def hexDigitUpper (n : Nat) : Char :=
  if n < 10 then Char.ofNat (48 + n) else Char.ofNat (55 + n)

/-- Lowercase hexadecimal digit, as produced by `JSON.stringify` control escapes. -/
def hexDigitLower (n : Nat) : Char :=
  if n < 10 then Char.ofNat (48 + n) else Char.ofNat (87 + n)

/-- Value of a hexadecimal digit character, either case. -/
def hexCharVal (c : Char) : Option Nat :=
  if 48 ≤ c.toNat ∧ c.toNat ≤ 57 then some (c.toNat - 48)
  else if 65 ≤ c.toNat ∧ c.toNat ≤ 70 then some (c.toNat - 55)
  else if 97 ≤ c.toNat ∧ c.toNat ≤ 102 then some (c.toNat - 87)
  else none

/-- UTF-8 encoding of a Unicode code point, as a list of byte values. -/
def utf8EncodeNat (n : Nat) : List Nat :=
  if n < 128 then [n]
  else if n < 2048 then [192 + n / 64, 128 + n % 64]
  else if n < 65536 then [224 + n / 4096, 128 + n / 64 % 64, 128 + n % 64]
  else [240 + n / 262144, 128 + n / 4096 % 64, 128 + n / 64 % 64, 128 + n % 64]

def utf8EncodeChar (c : Char) : List Nat := utf8EncodeNat c.toNat

/-- UTF-8 decoding of a byte-value list back to characters; `none` on
malformed input (which in JavaScript surfaces as a thrown `URIError`).
The accumulator state carries the partial code point, the number of
continuation bytes still expected, and the minimal code point for the
sequence length (overlong check). -/
def utf8DecodeAux : Option (Nat × Nat × Nat) → List Nat → Option LC
  | none, [] => some []
  | some _, [] => none
  | none, b :: rest =>
    if b < 128 then (fun l => Char.ofNat b :: l) <$> utf8DecodeAux none rest
    else if b < 192 then none
    else if b < 224 then utf8DecodeAux (some (b - 192, 1, 128)) rest
    else if b < 240 then utf8DecodeAux (some (b - 224, 2, 2048)) rest
    else if b < 248 then utf8DecodeAux (some (b - 240, 3, 65536)) rest
    else none
  | some (acc, k, mn), b :: rest =>
    if 128 ≤ b ∧ b < 192 then
      if k ≤ 1 then
        if mn ≤ acc * 64 + (b - 128) ∧ acc * 64 + (b - 128) < 1114112 ∧
            ¬(55296 ≤ acc * 64 + (b - 128) ∧ acc * 64 + (b - 128) ≤ 57343) then
          (fun l => Char.ofNat (acc * 64 + (b - 128)) :: l) <$> utf8DecodeAux none rest
        else none
      else utf8DecodeAux (some (acc * 64 + (b - 128), k - 1, mn)) rest
    else none

def utf8DecodeList (bs : List Nat) : Option LC := utf8DecodeAux none bs

/-- The `%XX` escape (uppercase hex) of one byte, as `encodeURIComponent` emits. -/
def percentEncodeByte (b : Nat) : LC := ['%', hexDigitUpper (b / 16), hexDigitUpper (b % 16)]

def concatAll (ls : List LC) : LC := ls.foldr (fun a b => a ++ b) []

/-- The characters `encodeURIComponent` leaves unescaped:
`A`–`Z`, `a`–`z`, `0`–`9`, and `- _ . ! ~ * ' ( )`. -/
def isUnreservedURI (c : Char) : Bool :=
  (65 ≤ c.toNat && c.toNat ≤ 90) || (97 ≤ c.toNat && c.toNat ≤ 122) ||
    (48 ≤ c.toNat && c.toNat ≤ 57) || c.toNat = 45 || c.toNat = 95 || c.toNat = 46 ||
    c.toNat = 33 || c.toNat = 126 || c.toNat = 42 || c.toNat = 39 || c.toNat = 40 ||
    c.toNat = 41

def encodeURIChar (c : Char) : LC :=
  if isUnreservedURI c then [c] else concatAll ((utf8EncodeChar c).map percentEncodeByte)

/-- JavaScript `encodeURIComponent`. -/
def encodeURIComponent (s : LC) : LC := concatAll (s.map encodeURIChar)

def hexPairVal (c1 c2 : Char) : Option Nat :=
  match hexCharVal c1, hexCharVal c2 with
  | some h1, some h2 => some (16 * h1 + h2)
  | _, _ => none

mutual

/-- Scan a percent-encoded string into byte values: a `%XX` escape contributes
the byte `XX`, a plain character contributes its UTF-8 bytes; `none` models a
thrown `URIError` (malformed escape). -/
def percentTokens : LC → Option (List Nat)
  | [] => some []
  | c :: rest =>
    if c = '%' then percentHexTokens rest
    else (fun bs => utf8EncodeChar c ++ bs) <$> percentTokens rest

def percentHexTokens : LC → Option (List Nat)
  | c1 :: c2 :: rest2 =>
    match hexPairVal c1 c2 with
    | some b => (fun bs => b :: bs) <$> percentTokens rest2
    | none => none
  | _ => none

end

/-- JavaScript `decodeURIComponent`; `none` models a thrown `URIError`. -/
def decodeURIComponent (s : LC) : Option LC := (percentTokens s).bind utf8DecodeList

/-- JavaScript JSON values, numbers restricted to integers (floating point
is outside this embedding's scope).  Object fields are kept in insertion
order, which both `JSON.stringify` and `JSON.parse` preserve, so structural
equality models JavaScript deep equality on round-tripped values. -/
inductive JsonValue where
  | null
  | bool (b : Bool)
  | num (n : Int)
  | str (s : LC)
  | arr (elems : List JsonValue)
  | obj (fields : List (LC × JsonValue))

/-- `JSON.stringify` escaping of a single string character. -/
def escapeJsonChar (c : Char) : LC :=
  if c = quoteChar then [backslashChar, quoteChar]
  else if c = backslashChar then [backslashChar, backslashChar]
  else if c.toNat = 8 then [backslashChar, 'b']
  else if c.toNat = 9 then [backslashChar, 't']
  else if c.toNat = 10 then [backslashChar, 'n']
  else if c.toNat = 12 then [backslashChar, 'f']
  else if c.toNat = 13 then [backslashChar, 'r']
  else if c.toNat < 32 then
    [backslashChar, 'u', '0', '0', hexDigitLower (c.toNat / 16), hexDigitLower (c.toNat % 16)]
  else [c]

def escapeJsonString (s : LC) : LC := concatAll (s.map escapeJsonChar)

def digitChar (d : Nat) : Char := Char.ofNat (48 + d)

/-- Decimal digits of `n`, least significant first (`fuel` bounds recursion
depth; `fuel = n` always suffices). -/
def natDigitsRev (fuel n : Nat) : List Nat :=
  match fuel with
  | 0 => []
  | f + 1 => if n = 0 then [] else n % 10 :: natDigitsRev f (n / 10)

def natToLC (n : Nat) : LC :=
  if n = 0 then ['0'] else ((natDigitsRev n n).map digitChar).reverse

def intToLC (i : Int) : LC :=
  if i < 0 then '-' :: natToLC i.natAbs else natToLC i.toNat

mutual

/-- `JSON.stringify` (compact form, as JavaScript produces with no spacing
argument). -/
def jsonStringify : JsonValue → LC
  | .null => strToLC "null"
  | .bool true => strToLC "true"
  | .bool false => strToLC "false"
  | .num i => intToLC i
  | .str s => quoteChar :: escapeJsonString s ++ [quoteChar]
  | .arr vs => '[' :: stringifyElems vs ++ [']']
  | .obj fs => lbraceChar :: stringifyFields fs ++ [rbraceChar]

def stringifyElems : List JsonValue → LC
  | [] => []
  | v :: vs => jsonStringify v ++ stringifyElemsTail vs

def stringifyElemsTail : List JsonValue → LC
  | [] => []
  | v :: vs => ',' :: (jsonStringify v ++ stringifyElemsTail vs)

def stringifyFields : List (LC × JsonValue) → LC
  | [] => []
  | (k, v) :: fs =>
    quoteChar :: escapeJsonString k ++ quoteChar :: ':' :: jsonStringify v ++
      stringifyFieldsTail fs

def stringifyFieldsTail : List (LC × JsonValue) → LC
  | [] => []
  | (k, v) :: fs =>
    ',' :: (quoteChar :: escapeJsonString k ++ quoteChar :: ':' :: jsonStringify v ++
      stringifyFieldsTail fs)

end

mutual

/-- Fuel bound for the recursive-descent JSON parser. -/
def jsize : JsonValue → Nat
  | .null => 1
  | .bool _ => 1
  | .num _ => 1
  | .str _ => 1
  | .arr vs => 1 + jsizeElems vs
  | .obj fs => 1 + jsizeFields fs

def jsizeElems : List JsonValue → Nat
  | [] => 1
  | v :: vs => 1 + jsize v + jsizeElems vs

def jsizeFields : List (LC × JsonValue) → Nat
  | [] => 1
  | (_, v) :: fs => 1 + jsize v + jsizeFields fs

end

def isDigitCh (c : Char) : Bool := 48 ≤ c.toNat && c.toNat ≤ 57

def digitsValBE (ds : LC) : Nat := ds.foldl (fun a c => 10 * a + (c.toNat - 48)) 0

/-- JSON number grammar (integer part): a leading `0` is only valid alone. -/
def parseNatNum : LC → Option (Nat × LC)
  | [] => none
  | c :: rest =>
    if c.toNat = 48 then some (0, rest)
    else if isDigitCh c then
      some (digitsValBE (List.takeWhile isDigitCh (c :: rest)),
        List.dropWhile isDigitCh (c :: rest))
    else none

def parseJNumber : LC → Option (JsonValue × LC)
  | [] => none
  | c :: rest =>
    if c = '-' then (fun p => (JsonValue.num (-(p.1 : Int)), p.2)) <$> parseNatNum rest
    else (fun p => (JsonValue.num ((p.1 : Int)), p.2)) <$> parseNatNum (c :: rest)

def skipWs (s : LC) : LC := s.dropWhile isJsonWs

def dropLit (p s : LC) : Option LC :=
  if listStartsWith p s then some (s.drop p.length) else none

def hexQuadVal (h1 h2 h3 h4 : Char) : Option Nat :=
  match hexCharVal h1, hexCharVal h2, hexCharVal h3, hexCharVal h4 with
  | some a, some b, some c, some d => some (4096 * a + 256 * b + 16 * c + d)
  | _, _, _, _ => none

mutual

/-- JSON string-body parser (the opening quote is already consumed); returns
the decoded content and the remainder after the closing quote.  A `\uXXXX`
escape denoting a surrogate code unit is rejected (`Char` cannot represent
lone surrogates; no claim exercises them). -/
def parseJStringAux : LC → Option (LC × LC)
  | [] => none
  | c :: rest =>
    if c = quoteChar then some ([], rest)
    else if c = backslashChar then parseJEscape rest
    else if c.toNat < 32 then none
    else (fun p => (c :: p.1, p.2)) <$> parseJStringAux rest

def parseJEscape : LC → Option (LC × LC)
  | [] => none
  | e :: rest =>
    if e = quoteChar then (fun p => (quoteChar :: p.1, p.2)) <$> parseJStringAux rest
    else if e = backslashChar then (fun p => (backslashChar :: p.1, p.2)) <$> parseJStringAux rest
    else if e = '/' then (fun p => ('/' :: p.1, p.2)) <$> parseJStringAux rest
    else if e = 'b' then (fun p => (Char.ofNat 8 :: p.1, p.2)) <$> parseJStringAux rest
    else if e = 'f' then (fun p => (Char.ofNat 12 :: p.1, p.2)) <$> parseJStringAux rest
    else if e = 'n' then (fun p => (Char.ofNat 10 :: p.1, p.2)) <$> parseJStringAux rest
    else if e = 'r' then (fun p => (Char.ofNat 13 :: p.1, p.2)) <$> parseJStringAux rest
    else if e = 't' then (fun p => (Char.ofNat 9 :: p.1, p.2)) <$> parseJStringAux rest
    else if e = 'u' then parseJUnicode rest
    else none

def parseJUnicode : LC → Option (LC × LC)
  | h1 :: h2 :: h3 :: h4 :: rest =>
    match hexQuadVal h1 h2 h3 h4 with
    | some cp =>
      if 55296 ≤ cp ∧ cp ≤ 57343 then none
      else (fun p => (Char.ofNat cp :: p.1, p.2)) <$> parseJStringAux rest
    | none => none
  | _ => none

end

mutual

/-- Recursive-descent `JSON.parse` with fuel. -/
def parseJValue : Nat → LC → Option (JsonValue × LC)
  | 0, _ => none
  | f + 1, s =>
    match skipWs s with
    | [] => none
    | c :: rest =>
      if c = 'n' then (fun r => (JsonValue.null, r)) <$> dropLit (strToLC "ull") rest
      else if c = 't' then (fun r => (JsonValue.bool true, r)) <$> dropLit (strToLC "rue") rest
      else if c = 'f' then (fun r => (JsonValue.bool false, r)) <$> dropLit (strToLC "alse") rest
      else if c = quoteChar then (fun p => (JsonValue.str p.1, p.2)) <$> parseJStringAux rest
      else if c = '[' then
        match skipWs rest with
        | [] => none
        | d :: rest1 =>
          if d = ']' then some (JsonValue.arr [], rest1)
          else (fun p => (JsonValue.arr p.1, p.2)) <$> parseJElems f (d :: rest1)
      else if c = lbraceChar then
        match skipWs rest with
        | [] => none
        | d :: rest1 =>
          if d = rbraceChar then some (JsonValue.obj [], rest1)
          else (fun p => (JsonValue.obj p.1, p.2)) <$> parseJMembers f (d :: rest1)
      else parseJNumber (c :: rest)

def parseJElems : Nat → LC → Option (List JsonValue × LC)
  | 0, _ => none
  | f + 1, s =>
    match parseJValue f s with
    | none => none
    | some (v, r) =>
      match skipWs r with
      | [] => none
      | c :: r1 =>
        if c = ',' then (fun p => (v :: p.1, p.2)) <$> parseJElems f r1
        else if c = ']' then some ([v], r1)
        else none

def parseJMembers : Nat → LC → Option (List (LC × JsonValue) × LC)
  | 0, _ => none
  | f + 1, s =>
    match skipWs s with
    | [] => none
    | c :: r0 =>
      if c = quoteChar then
        match parseJStringAux r0 with
        | none => none
        | some (k, r1) =>
          match skipWs r1 with
          | [] => none
          | d :: r2 =>
            if d = ':' then
              match parseJValue f r2 with
              | none => none
              | some (v, r3) =>
                match skipWs r3 with
                | [] => none
                | e :: r4 =>
                  if e = ',' then (fun p => ((k, v) :: p.1, p.2)) <$> parseJMembers f r4
                  else if e = rbraceChar then some ([(k, v)], r4)
                  else none
            else none
      else none

end

/-- JavaScript `JSON.parse`; `none` models a thrown `SyntaxError`. -/
def jsonParse (s : LC) : Option JsonValue :=
  match parseJValue (2 * s.length + 2) s with
  | none => none
  | some (v, rest) => if skipWs rest = [] then some v else none

def valLE : List Nat → Nat
  | [] => 0
  | d :: ds => d + 10 * valLE ds

def headNotSat (p : Char → Bool) : LC → Prop
  | [] => True
  | c :: _ => p c = false

/-- JavaScript object used as a string-keyed map (`Record<string, string>`):
an insertion-ordered association list; assignment overwrites in place. -/
abbrev JsObj := List (LC × LC)

/-- `obj[key] = value` on a JavaScript object. -/
def objSet : JsObj → LC → LC → JsObj
  | [], k, v => [(k, v)]
  | (k2, v2) :: rest, k, v =>
    if k2 = k then (k, v) :: rest else (k2, v2) :: objSet rest k v

/-- `obj[key]` on a JavaScript object (`none` = `undefined`). -/
def objGet : JsObj → LC → Option LC
  | [], _ => none
  | (k2, v2) :: rest, k => if k2 = k then some v2 else objGet rest k

/-- Remove every binding of `key` (the browser stores at most one). -/
def eraseKey (m : JsObj) (k : LC) : JsObj := m.filter (fun e => decide (¬(e.1 = k)))

/-- The cookie jar behind `document.cookie`: ordered list of raw
(already percent-encoded) name/value pairs. -/
abbrev CookieJar := List (LC × LC)

/-- The string the `document.cookie` getter yields: entries joined
with a semicolon and a space. -/
def docCookieString : CookieJar → LC
  | [] => []
  | [(n, v)] => n ++ '=' :: v
  | (n, v) :: rest => n ++ '=' :: v ++ ';' :: ' ' :: docCookieString rest

def takeUntilEq : LC → LC
  | [] => []
  | c :: rest => if c = '=' then [] else c :: takeUntilEq rest

def dropThroughEq : LC → LC
  | [] => []
  | c :: rest => if c = '=' then rest else dropThroughEq rest

def containsCh (ch : Char) (l : LC) : Bool := l.any (fun c => decide (c = ch))

def parseNatAll (s : LC) : Option Nat :=
  if s = [] then none
  else if s.all isDigitCh then some (digitsValBE s) else none

def parseIntLC (s : LC) : Option Int :=
  match s with
  | [] => none
  | c :: rest =>
    if c = '-' then (fun n => -(n : Int)) <$> parseNatAll rest
    else (fun n => (n : Int)) <$> parseNatAll (c :: rest)

/-- The millisecond timestamp rendering used for `expires` directives.
`Date.prototype.toUTCString` renders a calendar date; the embedding keeps
the raw timestamp (the rendering is injective, which is all the cookie
model observes). -/
def dateToUTCString (ms : Int) : LC := intToLC ms

/-- Search the attribute segments of a cookie string for an
`expires=` directive and parse its timestamp. -/
def findExpiresAttr : List LC → Option Int
  | [] => none
  | a :: rest =>
    let t := trimChars a
    if listStartsWith (strToLC "expires=") t then parseIntLC (t.drop 8)
    else findExpiresAttr rest

/-- Browser semantics of assigning to `document.cookie`: parse the first
`name=value` segment; if an `expires` attribute lies in the past, delete
that cookie, otherwise insert or overwrite it. -/
def documentCookieSet (now : Int) (jar : CookieJar) (s : LC) : CookieJar :=
  match splitOnChar ';' s with
  | [] => jar
  | nv :: attrs =>
    let t := trimChars nv
    let name := takeUntilEq t
    let value := dropThroughEq t
    match findExpiresAttr attrs with
    | some e => if e < now then eraseKey jar name else objSet jar name value
    | none => objSet jar name value

/-- `CookieOptions.expires`: a JavaScript `number | Date`. -/
inductive JsExpires where
  | num (days : Int)
  | date (ms : Int)

/-- `sameSite`: `"strict" | "lax" | "none"` (the string `"none"` is the
`noneVal` constructor). -/
inductive SameSiteMode where
  | strict
  | lax
  | noneVal

def sameSiteLower : SameSiteMode → LC
  | .strict => strToLC "strict"
  | .lax => strToLC "lax"
  | .noneVal => strToLC "none"

/-- `sameSite.charAt(0).toUpperCase() + sameSite.slice(1)`. -/
def capitalizeFirst : LC → LC
  | [] => []
  | c :: rest => c.toUpper :: rest

/-- `CookieOptions` from `cookie.service.ts`. -/
structure CookieOptions where
  expires : Option JsExpires := none
  path : Option LC := none
  domain : Option LC := none
  secure : Bool := false
  sameSite : Option SameSiteMode := none
  httpOnly : Bool := false

namespace CookieService

/-- `typeof value === "string" ? value : JSON.stringify(value)`. -/
def cookieStringValue : JsonValue → LC
  | .str s => s
  | v => jsonStringify v

/-- The leading `encodeURIComponent(name)=encodeURIComponent(stringValue)`. -/
def cookiePairPart (name : LC) (value : JsonValue) : LC :=
  encodeURIComponent name ++ '=' :: encodeURIComponent (cookieStringValue value)

/-- The `expires` directive: skipped when `options.expires` is absent or the
falsy number `0`; a numeric value is days-from-now, a `Date` is absolute. -/
def expiresPart (label : LC) (now : Int) : Option JsExpires → LC
  | none => []
  | some (.num n) => if n = 0 then [] else label ++ dateToUTCString (now + n * 86400000)
  | some (.date ms) => label ++ dateToUTCString ms

/-- The `path` directive: the given path when truthy, else the root default. -/
def pathPart (label root : LC) : Option LC → LC
  | some p => if p = [] then root else label ++ p
  | none => root

/-- The `domain` directive: only when truthy. -/
def domainPart (label : LC) : Option LC → LC
  | some d => if d = [] then [] else label ++ d
  | none => []

def securePart (lit : LC) : Bool → LC
  | true => lit
  | false => []

def sameSitePart (label : LC) (render : SameSiteMode → LC) : Option SameSiteMode → LC
  | some ss => label ++ render ss
  | none => []

/-- The cookie string `setCookie` composes and assigns to `document.cookie`
(lowercase directive names; no `HttpOnly` branch exists in `setCookie`). -/
def setCookieString (now : Int) (name : LC) (value : JsonValue)
    (options : CookieOptions) : LC :=
  cookiePairPart name value ++
    expiresPart (strToLC "; expires=") now options.expires ++
    pathPart (strToLC "; path=") (strToLC "; path=/") options.path ++
    domainPart (strToLC "; domain=") options.domain ++
    securePart (strToLC "; secure") options.secure ++
    sameSitePart (strToLC "; samesite=") sameSiteLower options.sameSite

/-- `setCookie`: no-op without a browser context, else compose the cookie
string and assign it to `document.cookie`. -/
def setCookie (now : Int) (doc : Option CookieJar) (name : LC) (value : JsonValue)
    (options : CookieOptions) : Option CookieJar :=
  match doc with
  | none => none
  | some jar => some (documentCookieSet now jar (setCookieString now name value options))

/-- The scan loop of `getCookie` over the split cookie string; the decode
failure (`URIError`) path is the surrounding `catch` returning `null`, the
`JSON.parse` failure path returns the raw decoded string. -/
def getCookieLoop (nameEQ : LC) : List LC → JsonValue
  | [] => .null
  | ck :: rest =>
    let c := trimChars ck
    if listStartsWith nameEQ c then
      match decodeURIComponent (c.drop nameEQ.length) with
      | none => .null
      | some dec =>
        match jsonParse dec with
        | some v => v
        | none => .str dec
    else getCookieLoop nameEQ rest

/-- `getCookie`: `JsonValue.null` models the JavaScript `null` result. -/
def getCookie (doc : Option CookieJar) (name : LC) : JsonValue :=
  match doc with
  | none => .null
  | some jar =>
    getCookieLoop (encodeURIComponent name ++ ['=']) (splitOnChar ';' (docCookieString jar))

/-- `removeCookie`: `setCookie` with the empty string and `expires: new Date(0)`. -/
def removeCookie (now : Int) (doc : Option CookieJar) (name : LC)
    (options : CookieOptions) : Option CookieJar :=
  setCookie now doc name (.str [])
    { path := options.path, domain := options.domain, expires := some (.date 0) }

/-- `hasCookie`: `getCookie(name) !== null`. -/
def hasCookie (doc : Option CookieJar) (name : LC) : Bool :=
  match getCookie doc name with
  | .null => false
  | _ => true

/-- The accumulation loop shared by `getAllCookies` and
`parseCookiesFromHeader`: split on `;`, trim, split each segment on `=`
(`name` is the part before the first `=`, `value` the part between the
first and second), skip falsy names and values, decode and assign.
`none` models a thrown `URIError` reaching the surrounding `catch`. -/
def parseCookieLoop : List LC → JsObj → Option JsObj
  | [], acc => some acc
  | ck :: rest, acc =>
    let c := trimChars ck
    let name := takeUntilEq c
    if containsCh '=' c then
      let value := takeUntilEq (dropThroughEq c)
      if name = [] then parseCookieLoop rest acc
      else if value = [] then parseCookieLoop rest acc
      else
        match decodeURIComponent name, decodeURIComponent value with
        | some dn, some dv => parseCookieLoop rest (objSet acc dn dv)
        | _, _ => none
    else parseCookieLoop rest acc

/-- `getAllCookies`. -/
def getAllCookies (doc : Option CookieJar) : JsObj :=
  match doc with
  | none => []
  | some jar =>
    match parseCookieLoop (splitOnChar ';' (docCookieString jar)) [] with
    | some m => m
    | none => []

/-- `clearAllCookies`: `removeCookie` on every key of `getAllCookies`. -/
def clearAllCookies (now : Int) (doc : Option CookieJar) : Option CookieJar :=
  match doc with
  | none => none
  | some jar =>
    ((getAllCookies (some jar)).map Prod.fst).foldl
      (fun d n => removeCookie now d n {}) (some jar)

/-- `parseCookiesFromHeader` (`cookieHeader : string | null`; `!cookieHeader`
also catches the empty string). -/
def parseCookiesFromHeader (header : Option LC) : JsObj :=
  match header with
  | none => []
  | some h =>
    if h = [] then []
    else
      match parseCookieLoop (splitOnChar ';' h) [] with
      | some m => m
      | none => []

/-- `createSetCookieHeader`: same composition as `setCookie` but returned
instead of written, with canonical-cased directive names, capitalized
`SameSite` value, and the additional `HttpOnly` directive. -/
def createSetCookieHeader (now : Int) (name : LC) (value : JsonValue)
    (options : CookieOptions) : LC :=
  cookiePairPart name value ++
    expiresPart (strToLC "; Expires=") now options.expires ++
    pathPart (strToLC "; Path=") (strToLC "; Path=/") options.path ++
    domainPart (strToLC "; Domain=") options.domain ++
    securePart (strToLC "; Secure") options.secure ++
    sameSitePart (strToLC "; SameSite=") (fun ss => capitalizeFirst (sameSiteLower ss))
      options.sameSite ++
    (if options.httpOnly then strToLC "; HttpOnly" else [])

end CookieService

/-- The backing store of a key/value storage adapter (`localStorage` or
`sessionStorage`): an insertion-ordered map from keys to raw strings. -/
abbrev StorageMap := List (LC × LC)

namespace LocalStorageService

/-- `setItem`: `JSON.stringify` the value and store it (no-op without a
browser context). -/
def setItem (store : Option StorageMap) (key : LC) (value : JsonValue) : Option StorageMap :=
  match store with
  | none => none
  | some st => some (objSet st key (jsonStringify value))

/-- `getItem`: `null` when the context or the key is absent, or when
`JSON.parse` throws (logged and swallowed). -/
def getItem (store : Option StorageMap) (key : LC) : JsonValue :=
  match store with
  | none => .null
  | some st =>
    match objGet st key with
    | none => .null
    | some item =>
      match jsonParse item with
      | some v => v
      | none => .null

def removeItem (store : Option StorageMap) (key : LC) : Option StorageMap :=
  match store with
  | none => none
  | some st => some (eraseKey st key)

def clear (store : Option StorageMap) : Option StorageMap :=
  match store with
  | none => none
  | some _ => some []

def getAllKeys (store : Option StorageMap) : List LC :=
  match store with
  | none => []
  | some st => st.map Prod.fst

def hasItem (store : Option StorageMap) (key : LC) : Bool :=
  match store with
  | none => false
  | some st =>
    match objGet st key with
    | none => false
    | some _ => true

def getLength (store : Option StorageMap) : Nat :=
  match store with
  | none => 0
  | some st => st.length

end LocalStorageService

namespace SessionStorageService

/-- `SessionStorageService` is textually identical to `LocalStorageService`
except for the backing store; its methods are embedded with the same code. -/
def setItem (store : Option StorageMap) (key : LC) (value : JsonValue) : Option StorageMap :=
  match store with
  | none => none
  | some st => some (objSet st key (jsonStringify value))

def getItem (store : Option StorageMap) (key : LC) : JsonValue :=
  match store with
  | none => .null
  | some st =>
    match objGet st key with
    | none => .null
    | some item =>
      match jsonParse item with
      | some v => v
      | none => .null

def removeItem (store : Option StorageMap) (key : LC) : Option StorageMap :=
  match store with
  | none => none
  | some st => some (eraseKey st key)

def clear (store : Option StorageMap) : Option StorageMap :=
  match store with
  | none => none
  | some _ => some []

def getAllKeys (store : Option StorageMap) : List LC :=
  match store with
  | none => []
  | some st => st.map Prod.fst

def hasItem (store : Option StorageMap) (key : LC) : Bool :=
  match store with
  | none => false
  | some st =>
    match objGet st key with
    | none => false
    | some _ => true

def getLength (store : Option StorageMap) : Nat :=
  match store with
  | none => 0
  | some st => st.length

end SessionStorageService

/-- The value branch of `getCookie`: `JSON.parse` the decoded text, fall
back to the raw decoded string. -/
def cookieDecodeResult (dec : LC) : JsonValue :=
  match jsonParse dec with
  | some v => v
  | none => .str dec

/-- Is `pat` a contiguous substring of the list? -/
def listContainsSub (pat : LC) : LC → Bool
  | [] => listStartsWith pat []
  | c :: rest => listStartsWith pat (c :: rest) || listContainsSub pat rest

/-- Does the cookie string contain an `HttpOnly` directive, i.e. a
semicolon-separated segment whose trimmed text is exactly `HttpOnly`? -/
def hasHttpOnlySeg (s : LC) : Bool :=
  (splitOnChar ';' s).any (fun seg => decide (trimChars seg = strToLC "HttpOnly"))

theorem splitOnChar_ne_nil (sep : Char) (l : LC) : splitOnChar sep l ≠ [] := by
  cases l with
  | nil => simp [splitOnChar]
  | cons c cs =>
    simp only [splitOnChar]
    cases h : splitOnChar sep cs with
    | nil => simp
    | cons h t =>
      by_cases hc : c = sep <;> simp [hc]

theorem splitOnChar_append (sep : Char) (a b : LC) :
    splitOnChar sep (a ++ sep :: b) = splitOnChar sep a ++ splitOnChar sep b := by
  induction a with
  | nil =>
    simp only [List.nil_append, splitOnChar]
    cases h : splitOnChar sep b with
    | nil => exact absurd h (splitOnChar_ne_nil sep b)
    | cons x t => simp
  | cons c cs ih =>
    cases h : splitOnChar sep cs with
    | nil => exact absurd h (splitOnChar_ne_nil sep cs)
    | cons x t =>
      simp only [List.cons_append, splitOnChar, List.append_eq]
      rw [ih, h]
      by_cases hc : c = sep <;> simp [hc]

theorem splitOnChar_no_sep (sep : Char) (a : LC) (h : sep ∉ a) :
    splitOnChar sep a = [a] := by
  induction a with
  | nil => rfl
  | cons c cs ih =>
    simp only [List.mem_cons, not_or] at h
    simp only [splitOnChar, ih h.2]
    simp [Ne.symm h.1]

theorem dropWhile_eq_self_of_all {p : Char → Bool} {l : LC}
    (h : ∀ c ∈ l, p c = false) : l.dropWhile p = l := by
  cases l with
  | nil => rfl
  | cons c cs => simp [List.dropWhile, h c (by simp)]

theorem trimChars_eq_self {l : LC} (h : ∀ c ∈ l, isJsWs c = false) :
    trimChars l = l := by
  unfold trimChars dropTrailingWs dropLeadingWs
  rw [dropWhile_eq_self_of_all h, dropWhile_eq_self_of_all (by
    intro c hc; exact h c (List.mem_reverse.mp hc))]
  simp

theorem trimChars_space_cons (l : LC) : trimChars (' ' :: l) = trimChars l := by
  unfold trimChars dropLeadingWs
  simp [List.dropWhile, isJsWs]

theorem listStartsWith_append_self (p r : LC) : listStartsWith p (p ++ r) = true := by
  induction p with
  | nil => rfl
  | cons c cs ih => simp [listStartsWith, ih]

theorem listStartsWith_nil_right {p : LC} (h : p ≠ []) : listStartsWith p [] = false := by
  cases p with
  | nil => exact absurd rfl h
  | cons c cs => rfl

theorem hexCharVal_upper {n : Nat} (h : n < 16) :
    hexCharVal (hexDigitUpper n) = some n := by
  have hall : ∀ m : Fin 16, hexCharVal (hexDigitUpper m.val) = some m.val := by decide
  exact hall ⟨n, h⟩

theorem hexCharVal_lower {n : Nat} (h : n < 16) :
    hexCharVal (hexDigitLower n) = some n := by
  have hall : ∀ m : Fin 16, hexCharVal (hexDigitLower m.val) = some m.val := by decide
  exact hall ⟨n, h⟩

theorem hexDigitUpper_toNat_range {n : Nat} (h : n < 16) :
    (48 ≤ (hexDigitUpper n).toNat ∧ (hexDigitUpper n).toNat ≤ 57) ∨
      (65 ≤ (hexDigitUpper n).toNat ∧ (hexDigitUpper n).toNat ≤ 70) := by
  have hall : ∀ m : Fin 16,
      (48 ≤ (hexDigitUpper m.val).toNat ∧ (hexDigitUpper m.val).toNat ≤ 57) ∨
        (65 ≤ (hexDigitUpper m.val).toNat ∧ (hexDigitUpper m.val).toNat ≤ 70) := by decide
  exact hall ⟨n, h⟩

theorem char_toNat_valid (c : Char) :
    c.toNat < 55296 ∨ (57343 < c.toNat ∧ c.toNat < 1114112) := by
  have h := c.valid
  simpa [UInt32.isValidChar, Nat.isValidChar, Char.toNat] using h

theorem char_toNat_lt (c : Char) : c.toNat < 1114112 := by
  rcases char_toNat_valid c with h | h
  · omega
  · omega

theorem utf8DecodeList_encodeChar (c : Char) (bs : List Nat) :
    utf8DecodeList (utf8EncodeChar c ++ bs) = (fun l => c :: l) <$> utf8DecodeList bs := by
  have hv := char_toNat_valid c
  have hofn : Char.ofNat c.toNat = c := Char.ofNat_toNat c
  unfold utf8DecodeList utf8EncodeChar utf8EncodeNat
  by_cases h1 : c.toNat < 128
  · rw [if_pos h1]
    show utf8DecodeAux none (c.toNat :: bs) = _
    rw [utf8DecodeAux]
    rw [if_pos h1, hofn]
  · rw [if_neg h1]
    by_cases h2 : c.toNat < 2048
    · rw [if_pos h2]
      have e1 : ¬(192 + c.toNat / 64 < 128) := by omega
      have e2 : ¬(192 + c.toNat / 64 < 192) := by omega
      have e3 : 192 + c.toNat / 64 < 224 := by omega
      have e4 : 128 ≤ 128 + c.toNat % 64 ∧ 128 + c.toNat % 64 < 192 := ⟨by omega, by omega⟩
      have e5 : (192 + c.toNat / 64 - 192) * 64 + (128 + c.toNat % 64 - 128) = c.toNat := by
        omega
      have e6 : 128 ≤ c.toNat ∧ c.toNat < 1114112 ∧
          ¬(55296 ≤ c.toNat ∧ c.toNat ≤ 57343) := by omega
      show utf8DecodeAux none ((192 + c.toNat / 64) :: (128 + c.toNat % 64) :: bs) = _
      rw [utf8DecodeAux, if_neg e1, if_neg e2, if_pos e3]
      rw [utf8DecodeAux, if_pos e4, if_pos (le_refl 1), e5, if_pos e6, hofn]
    · by_cases h3 : c.toNat < 65536
      · rw [if_neg h2, if_pos h3]
        have e1 : ¬(224 + c.toNat / 4096 < 128) := by omega
        have e2 : ¬(224 + c.toNat / 4096 < 192) := by omega
        have e3 : ¬(224 + c.toNat / 4096 < 224) := by omega
        have e4 : 224 + c.toNat / 4096 < 240 := by omega
        have e5 : 128 ≤ 128 + c.toNat / 64 % 64 ∧ 128 + c.toNat / 64 % 64 < 192 :=
          ⟨by omega, by omega⟩
        have e6 : 128 ≤ 128 + c.toNat % 64 ∧ 128 + c.toNat % 64 < 192 := ⟨by omega, by omega⟩
        have e7 : ¬((2 : Nat) ≤ 1) := by omega
        have e8 : (224 + c.toNat / 4096 - 224) * 64 + (128 + c.toNat / 64 % 64 - 128) =
            c.toNat / 64 := by omega
        have e9 : c.toNat / 64 * 64 + (128 + c.toNat % 64 - 128) = c.toNat := by omega
        have e10 : 2048 ≤ c.toNat ∧ c.toNat < 1114112 ∧
            ¬(55296 ≤ c.toNat ∧ c.toNat ≤ 57343) := by omega
        show utf8DecodeAux none ((224 + c.toNat / 4096) :: (128 + c.toNat / 64 % 64) ::
          (128 + c.toNat % 64) :: bs) = _
        rw [utf8DecodeAux, if_neg e1, if_neg e2, if_neg e3, if_pos e4]
        rw [utf8DecodeAux, if_pos e5, if_neg e7, e8]
        rw [utf8DecodeAux, if_pos e6, if_pos (le_refl 1), e9, if_pos e10, hofn]
      · rw [if_neg h2, if_neg h3]
        have e1 : ¬(240 + c.toNat / 262144 < 128) := by omega
        have e2 : ¬(240 + c.toNat / 262144 < 192) := by omega
        have e3 : ¬(240 + c.toNat / 262144 < 224) := by omega
        have e4 : ¬(240 + c.toNat / 262144 < 240) := by omega
        have e5 : 240 + c.toNat / 262144 < 248 := by omega
        have e6 : 128 ≤ 128 + c.toNat / 4096 % 64 ∧ 128 + c.toNat / 4096 % 64 < 192 :=
          ⟨by omega, by omega⟩
        have e7 : 128 ≤ 128 + c.toNat / 64 % 64 ∧ 128 + c.toNat / 64 % 64 < 192 :=
          ⟨by omega, by omega⟩
        have e8 : 128 ≤ 128 + c.toNat % 64 ∧ 128 + c.toNat % 64 < 192 := ⟨by omega, by omega⟩
        have e9 : ¬((3 : Nat) ≤ 1) := by omega
        have e10 : ¬((2 : Nat) ≤ 1) := by omega
        have e11 : (240 + c.toNat / 262144 - 240) * 64 + (128 + c.toNat / 4096 % 64 - 128) =
            c.toNat / 4096 := by omega
        have e12 : c.toNat / 4096 * 64 + (128 + c.toNat / 64 % 64 - 128) = c.toNat / 64 := by
          omega
        have e13 : c.toNat / 64 * 64 + (128 + c.toNat % 64 - 128) = c.toNat := by omega
        have e14 : 65536 ≤ c.toNat ∧ c.toNat < 1114112 ∧
            ¬(55296 ≤ c.toNat ∧ c.toNat ≤ 57343) := by omega
        show utf8DecodeAux none ((240 + c.toNat / 262144) :: (128 + c.toNat / 4096 % 64) ::
          (128 + c.toNat / 64 % 64) :: (128 + c.toNat % 64) :: bs) = _
        rw [utf8DecodeAux, if_neg e1, if_neg e2, if_neg e3, if_neg e4, if_pos e5]
        rw [utf8DecodeAux, if_pos e6, if_neg e9, e11]
        rw [utf8DecodeAux, if_pos e7, if_neg e10, e12]
        rw [utf8DecodeAux, if_pos e8, if_pos (le_refl 1), e13, if_pos e14, hofn]

theorem utf8EncodeNat_bytes_lt {n : Nat} (hn : n < 1114112) :
    ∀ b ∈ utf8EncodeNat n, b < 256 := by
  unfold utf8EncodeNat
  split_ifs with h1 h2 h3 <;>
    · intro b hb
      simp only [List.mem_cons, List.mem_singleton, List.not_mem_nil, or_false] at hb
      rcases hb with h | h | h | h <;> omega

theorem utf8EncodeNat_ne_nil (n : Nat) : utf8EncodeNat n ≠ [] := by
  unfold utf8EncodeNat
  split_ifs <;> simp

theorem percentTokens_byte {b : Nat} (hb : b < 256) (r : LC) :
    percentTokens (percentEncodeByte b ++ r) = (fun bs => b :: bs) <$> percentTokens r := by
  have h1 : hexCharVal (hexDigitUpper (b / 16)) = some (b / 16) := hexCharVal_upper (by omega)
  have h2 : hexCharVal (hexDigitUpper (b % 16)) = some (b % 16) := hexCharVal_upper (by omega)
  have h3 : 16 * (b / 16) + b % 16 = b := by omega
  show percentTokens ('%' :: hexDigitUpper (b / 16) :: hexDigitUpper (b % 16) :: r) = _
  rw [percentTokens, if_pos rfl, percentHexTokens]
  unfold hexPairVal
  rw [h1, h2]
  dsimp only
  rw [h3]

theorem utf8EncodeChar_bytes_lt (c : Char) : ∀ b ∈ utf8EncodeChar c, b < 256 :=
  utf8EncodeNat_bytes_lt (char_toNat_lt c)

theorem percentTokens_bytes (bs : List Nat) (h : ∀ b ∈ bs, b < 256) (r : LC) :
    percentTokens (concatAll (bs.map percentEncodeByte) ++ r) =
      (fun l => bs ++ l) <$> percentTokens r := by
  induction bs with
  | nil =>
    show percentTokens r = _
    cases percentTokens r <;> simp
  | cons b bs ih =>
    have hb : b < 256 := h b (by simp)
    have hrest : ∀ x ∈ bs, x < 256 := fun x hx => h x (by simp [hx])
    show percentTokens ((percentEncodeByte b ++ concatAll (bs.map percentEncodeByte)) ++ r) = _
    rw [List.append_assoc, percentTokens_byte hb, ih hrest]
    cases percentTokens r <;> simp

theorem isUnreservedURI_ne_percent {c : Char} (h : isUnreservedURI c = true) : ¬(c = '%') := by
  intro he
  subst he
  exact absurd h (by decide)

theorem percentTokens_encodeChar (c : Char) (r : LC) :
    percentTokens (encodeURIChar c ++ r) =
      (fun bs => utf8EncodeChar c ++ bs) <$> percentTokens r := by
  unfold encodeURIChar
  by_cases h : isUnreservedURI c
  · rw [if_pos h]
    show percentTokens (c :: r) = _
    rw [percentTokens, if_neg (isUnreservedURI_ne_percent h)]
  · rw [if_neg h, percentTokens_bytes _ (utf8EncodeChar_bytes_lt c)]

theorem decodeURIComponent_encode_append (s r : LC) :
    decodeURIComponent (encodeURIComponent s ++ r) =
      (fun l => s ++ l) <$> decodeURIComponent r := by
  induction s with
  | nil =>
    show decodeURIComponent r = _
    cases hd : decodeURIComponent r <;> simp
  | cons c cs ih =>
    show decodeURIComponent ((encodeURIChar c ++ encodeURIComponent cs) ++ r) = _
    rw [List.append_assoc]
    unfold decodeURIComponent at ih ⊢
    rw [percentTokens_encodeChar]
    cases hpt : percentTokens (encodeURIComponent cs ++ r) with
    | none =>
      rw [hpt] at ih
      simp only [Option.none_bind, Option.map_none'] at ih ⊢
      have hr : (percentTokens r).bind utf8DecodeList = none := by
        cases hx : (percentTokens r).bind utf8DecodeList with
        | none => rfl
        | some v => rw [hx] at ih; simp at ih
      rw [hr]
      simp
    | some bs =>
      rw [hpt] at ih
      simp only [Option.map_eq_map, Option.map_some', Option.some_bind] at ih ⊢
      rw [utf8DecodeList_encodeChar, ih]
      simp only [Option.map_eq_map]
      cases (percentTokens r).bind utf8DecodeList <;> simp

theorem decodeURIComponent_encode (s : LC) :
    decodeURIComponent (encodeURIComponent s) = some s := by
  have h := decodeURIComponent_encode_append s []
  rw [List.append_nil] at h
  rw [h]
  show (fun l => s ++ l) <$> decodeURIComponent [] = _
  simp [decodeURIComponent, percentTokens, utf8DecodeList, utf8DecodeAux]

theorem decodeURIComponent_cons_raw {c : Char} (hc : ¬(c = '%')) (r : LC) :
    decodeURIComponent (c :: r) = (fun l => c :: l) <$> decodeURIComponent r := by
  unfold decodeURIComponent
  rw [percentTokens, if_neg hc]
  cases hpt : percentTokens r with
  | none => simp
  | some bs =>
    simp only [Option.map_eq_map, Option.map_some', Option.some_bind]
    rw [utf8DecodeList_encodeChar]
    simp only [Option.map_eq_map]

theorem mem_concatAll {x : Char} {ls : List LC} : x ∈ concatAll ls ↔ ∃ l ∈ ls, x ∈ l := by
  induction ls with
  | nil => simp [concatAll]
  | cons a ls ih =>
    show x ∈ a ++ concatAll ls ↔ _
    simp [List.mem_append, ih]

theorem encodeURIChar_good (c : Char) :
    ∀ x ∈ encodeURIChar c, isJsWs x = false ∧ x ≠ ';' ∧ x ≠ '=' := by
  intro x hx
  unfold encodeURIChar at hx
  by_cases h : isUnreservedURI c
  · rw [if_pos h] at hx
    simp only [List.mem_singleton] at hx
    subst hx
    simp only [isUnreservedURI, Bool.or_eq_true, Bool.and_eq_true, decide_eq_true_eq] at h
    refine ⟨?_, ?_, ?_⟩
    · simp only [isJsWs, Bool.or_eq_true, Bool.and_eq_true, decide_eq_true_eq,
        Bool.or_eq_false_iff, Bool.and_eq_false_iff]
      constructor
      · simp only [decide_eq_false_iff_not]
        omega
      · by_cases h9 : 9 ≤ x.toNat
        · right
          simp only [decide_eq_false_iff_not]
          omega
        · left
          simp only [decide_eq_false_iff_not]
          omega
    · intro he
      have h59 : x.toNat = 59 := by subst he; decide
      omega
    · intro he
      have h61 : x.toNat = 61 := by subst he; decide
      omega
  · rw [if_neg h] at hx
    rw [mem_concatAll] at hx
    obtain ⟨l, hl, hxl⟩ := hx
    obtain ⟨b, hb, rfl⟩ := List.mem_map.mp hl
    have hblt : b < 256 := utf8EncodeChar_bytes_lt c b hb
    have hrange : ∀ d : Nat, d < 16 →
        (48 ≤ (hexDigitUpper d).toNat ∧ (hexDigitUpper d).toNat ≤ 57) ∨
          (65 ≤ (hexDigitUpper d).toNat ∧ (hexDigitUpper d).toNat ≤ 70) :=
      fun d hd => hexDigitUpper_toNat_range hd
    simp only [percentEncodeByte, List.mem_cons, List.mem_singleton, List.not_mem_nil,
      or_false] at hxl
    have hnat : x.toNat = 37 ∨ (48 ≤ x.toNat ∧ x.toNat ≤ 57) ∨ (65 ≤ x.toNat ∧ x.toNat ≤ 70) := by
      rcases hxl with rfl | rfl | rfl
      · left; rfl
      · rcases hrange (b / 16) (by omega) with hr | hr
        · right; left; exact hr
        · right; right; exact hr
      · rcases hrange (b % 16) (by omega) with hr | hr
        · right; left; exact hr
        · right; right; exact hr
    refine ⟨?_, ?_, ?_⟩
    · simp only [isJsWs, Bool.or_eq_true, Bool.and_eq_true, decide_eq_true_eq,
        Bool.or_eq_false_iff, Bool.and_eq_false_iff]
      constructor
      · simp only [decide_eq_false_iff_not]
        omega
      · by_cases h9 : 9 ≤ x.toNat
        · right
          simp only [decide_eq_false_iff_not]
          omega
        · left
          simp only [decide_eq_false_iff_not]
          omega
    · intro he
      have h59 : x.toNat = 59 := by subst he; decide
      omega
    · intro he
      have h61 : x.toNat = 61 := by subst he; decide
      omega

theorem encodeURIComponent_good (s : LC) :
    ∀ x ∈ encodeURIComponent s, isJsWs x = false ∧ x ≠ ';' ∧ x ≠ '=' := by
  intro x hx
  unfold encodeURIComponent at hx
  rw [mem_concatAll] at hx
  obtain ⟨l, hl, hxl⟩ := hx
  obtain ⟨c, _, rfl⟩ := List.mem_map.mp hl
  exact encodeURIChar_good c x hxl

theorem semicolon_not_mem_encode (s : LC) : ';' ∉ encodeURIComponent s := fun h =>
  (encodeURIComponent_good s _ h).2.1 rfl

theorem eqsign_not_mem_encode (s : LC) : '=' ∉ encodeURIComponent s := fun h =>
  (encodeURIComponent_good s _ h).2.2 rfl

theorem encode_no_ws (s : LC) : ∀ x ∈ encodeURIComponent s, isJsWs x = false := fun x h =>
  (encodeURIComponent_good s x h).1

theorem encodeURIChar_ne_nil (c : Char) : encodeURIChar c ≠ [] := by
  unfold encodeURIChar
  by_cases h : isUnreservedURI c
  · rw [if_pos h]
    simp
  · rw [if_neg h]
    cases hbs : utf8EncodeChar c with
    | nil => exact absurd hbs (utf8EncodeNat_ne_nil c.toNat)
    | cons b t =>
      show percentEncodeByte b ++ concatAll (t.map percentEncodeByte) ≠ []
      simp [percentEncodeByte]

theorem encodeURIComponent_ne_nil {s : LC} (h : s ≠ []) : encodeURIComponent s ≠ [] := by
  cases s with
  | nil => exact absurd rfl h
  | cons c cs =>
    show encodeURIChar c ++ encodeURIComponent cs ≠ []
    simp [encodeURIChar_ne_nil c]

theorem natDigitsRev_zero (f : Nat) : natDigitsRev f 0 = [] := by
  cases f <;> simp [natDigitsRev]

theorem natDigitsRev_lt_ten : ∀ f n d, d ∈ natDigitsRev f n → d < 10 := by
  intro f
  induction f with
  | zero => intro n d hd; simp [natDigitsRev] at hd
  | succ f ih =>
    intro n d hd
    by_cases h : n = 0
    · simp [natDigitsRev, h] at hd
    · simp only [natDigitsRev, if_neg h, List.mem_cons] at hd
      rcases hd with rfl | hd
      · omega
      · exact ih _ _ hd

theorem valLE_natDigitsRev : ∀ f n, n ≤ f → valLE (natDigitsRev f n) = n := by
  intro f
  induction f with
  | zero =>
    intro n h
    have h0 : n = 0 := by omega
    simp [natDigitsRev, valLE, h0]
  | succ f ih =>
    intro n h
    by_cases h0 : n = 0
    · simp [natDigitsRev, h0, valLE]
    · rw [natDigitsRev, if_neg h0]
      simp only [valLE]
      rw [ih (n / 10) (by omega)]
      omega

theorem natDigitsRev_reverse_head : ∀ f n, 0 < n → n ≤ f →
    ∃ d ds, (natDigitsRev f n).reverse = d :: ds ∧ d ≠ 0 ∧ d < 10 := by
  intro f
  induction f with
  | zero => intro n h1 h2; omega
  | succ f ih =>
    intro n h1 h2
    rw [natDigitsRev, if_neg (by omega : ¬n = 0)]
    by_cases h10 : n / 10 = 0
    · rw [h10, natDigitsRev_zero]
      exact ⟨n % 10, [], by simp, by omega, by omega⟩
    · obtain ⟨d, ds, hrev, hd0, hd10⟩ := ih (n / 10) (by omega) (by omega)
      refine ⟨d, ds ++ [n % 10], ?_, hd0, hd10⟩
      simp [hrev]

theorem digitChar_toNat {d : Nat} (h : d < 10) : (digitChar d).toNat = 48 + d := by
  have hall : ∀ m : Fin 10, (digitChar m.val).toNat = 48 + m.val := by decide
  exact hall ⟨d, h⟩

theorem isDigitCh_digitChar {d : Nat} (h : d < 10) : isDigitCh (digitChar d) = true := by
  simp only [isDigitCh, digitChar_toNat h, Bool.and_eq_true, decide_eq_true_eq]
  omega

theorem digitsValBE_rev_map {lds : List Nat} (h : ∀ d ∈ lds, d < 10) :
    digitsValBE ((lds.map digitChar).reverse) = valLE lds := by
  induction lds with
  | nil => rfl
  | cons d ds ih =>
    have hd : d < 10 := h d (by simp)
    have hds : ∀ x ∈ ds, x < 10 := fun x hx => h x (by simp [hx])
    show digitsValBE ((digitChar d :: ds.map digitChar).reverse) = _
    rw [List.reverse_cons]
    unfold digitsValBE
    rw [List.foldl_append]
    simp only [List.foldl_cons, List.foldl_nil]
    have hih := ih hds
    unfold digitsValBE at hih
    rw [hih, digitChar_toNat hd]
    simp only [valLE]
    omega

theorem takeWhile_append_of_all {p : Char → Bool} {a b : LC}
    (ha : ∀ c ∈ a, p c = true) (hb : headNotSat p b) :
    List.takeWhile p (a ++ b) = a ∧ List.dropWhile p (a ++ b) = b := by
  induction a with
  | nil =>
    cases b with
    | nil => exact ⟨rfl, rfl⟩
    | cons c cs =>
      simp only [headNotSat] at hb
      constructor
      · simp [List.takeWhile_cons, hb]
      · simp [List.dropWhile_cons, hb]
  | cons x a ih =>
    have hx : p x = true := ha x (by simp)
    have ha2 : ∀ c ∈ a, p c = true := fun c hc => ha c (by simp [hc])
    obtain ⟨h1, h2⟩ := ih ha2
    constructor
    · simp [List.takeWhile_cons, hx, h1]
    · simp [List.dropWhile_cons, hx, h2]

theorem natToLC_all_digits (n : Nat) : ∀ x ∈ natToLC n, isDigitCh x = true := by
  unfold natToLC
  by_cases h : n = 0
  · rw [if_pos h]
    intro x hx
    simp only [List.mem_singleton] at hx
    subst hx
    decide
  · rw [if_neg h]
    intro x hx
    rw [List.mem_reverse] at hx
    obtain ⟨d, hd, rfl⟩ := List.mem_map.mp hx
    exact isDigitCh_digitChar (natDigitsRev_lt_ten n n d hd)

theorem digitsValBE_natToLC (n : Nat) : digitsValBE (natToLC n) = n := by
  unfold natToLC
  by_cases h : n = 0
  · rw [if_pos h, h]
    rfl
  · rw [if_neg h, digitsValBE_rev_map (fun d hd => natDigitsRev_lt_ten n n d hd),
      valLE_natDigitsRev n n (le_refl n)]

theorem natToLC_ne_nil (n : Nat) : natToLC n ≠ [] := by
  unfold natToLC
  by_cases h : n = 0
  · rw [if_pos h]
    simp
  · rw [if_neg h]
    cases hn : n with
    | zero => exact absurd hn h
    | succ f =>
      rw [natDigitsRev, if_neg (Nat.succ_ne_zero f)]
      simp

theorem parseNatNum_natToLC (n : Nat) {r : LC} (hr : headNotSat isDigitCh r) :
    parseNatNum (natToLC n ++ r) = some (n, r) := by
  by_cases h : n = 0
  · subst h
    show parseNatNum ('0' :: r) = _
    rw [parseNatNum, if_pos (by decide : ('0' : Char).toNat = 48)]
  · obtain ⟨d, ds, hrev, hd0, hd10⟩ := natDigitsRev_reverse_head n n (by omega) (le_refl n)
    have hnat : natToLC n = digitChar d :: ds.map digitChar := by
      unfold natToLC
      rw [if_neg h, ← List.map_reverse, hrev]
      rfl
    rw [hnat]
    show parseNatNum (digitChar d :: (ds.map digitChar ++ r)) = _
    rw [parseNatNum]
    have hc48 : ¬((digitChar d).toNat = 48) := by
      rw [digitChar_toNat hd10]
      omega
    rw [if_neg hc48, if_pos (isDigitCh_digitChar hd10)]
    have hall : ∀ c ∈ digitChar d :: ds.map digitChar, isDigitCh c = true := by
      rw [← hnat]
      exact natToLC_all_digits n
    obtain ⟨ht, hdp⟩ := takeWhile_append_of_all hall hr
    rw [show digitChar d :: (List.map digitChar ds ++ r) =
      (digitChar d :: List.map digitChar ds) ++ r from rfl, ht, hdp, ← hnat,
      digitsValBE_natToLC]

theorem parseJNumber_intToLC (i : Int) {r : LC} (hr : headNotSat isDigitCh r) :
    parseJNumber (intToLC i ++ r) = some (JsonValue.num i, r) := by
  unfold intToLC
  by_cases h : i < 0
  · rw [if_pos h]
    show parseJNumber ('-' :: (natToLC i.natAbs ++ r)) = _
    rw [parseJNumber, if_pos rfl, parseNatNum_natToLC _ hr]
    simp only [Option.map_eq_map, Option.map_some']
    have he : -((i.natAbs : Nat) : Int) = i := by omega
    rw [he]
  · rw [if_neg h]
    cases hnl : natToLC i.toNat with
    | nil => exact absurd hnl (natToLC_ne_nil _)
    | cons c cs =>
      have hcd : isDigitCh c = true := natToLC_all_digits _ c (by rw [hnl]; simp)
      have hcm : ¬(c = '-') := by
        intro he
        subst he
        exact absurd hcd (by decide)
      show parseJNumber (c :: (cs ++ r)) = _
      rw [parseJNumber, if_neg hcm]
      rw [show c :: (cs ++ r) = (c :: cs) ++ r from rfl, ← hnl, parseNatNum_natToLC _ hr]
      simp only [Option.map_eq_map, Option.map_some']
      have he : ((i.toNat : Nat) : Int) = i := by omega
      rw [he]

theorem charOfNat_eq_of_toNat {c : Char} {n : Nat} (h : c.toNat = n) : Char.ofNat n = c := by
  rw [← h, Char.ofNat_toNat]

theorem parseJStringAux_escape (s r : LC) :
    parseJStringAux (escapeJsonString s ++ quoteChar :: r) = some (s, r) := by
  induction s with
  | nil =>
    show parseJStringAux (quoteChar :: r) = _
    rw [parseJStringAux, if_pos rfl]
  | cons c cs ih =>
    show parseJStringAux ((escapeJsonChar c ++ escapeJsonString cs) ++ quoteChar :: r) = _
    rw [List.append_assoc]
    unfold escapeJsonChar
    by_cases h1 : c = quoteChar
    · rw [if_pos h1]
      show parseJStringAux (backslashChar ::
        (quoteChar :: (escapeJsonString cs ++ quoteChar :: r))) = _
      rw [parseJStringAux, if_neg (by decide : ¬(backslashChar = quoteChar)), if_pos rfl]
      rw [parseJEscape, if_pos rfl, ih]
      simp only [Option.map_eq_map, Option.map_some']
      rw [h1]
    · rw [if_neg h1]
      by_cases h2 : c = backslashChar
      · rw [if_pos h2]
        show parseJStringAux (backslashChar ::
          (backslashChar :: (escapeJsonString cs ++ quoteChar :: r))) = _
        rw [parseJStringAux, if_neg (by decide : ¬(backslashChar = quoteChar)), if_pos rfl]
        rw [parseJEscape, if_neg (by decide : ¬(backslashChar = quoteChar)), if_pos rfl, ih]
        simp only [Option.map_eq_map, Option.map_some']
        rw [h2]
      · rw [if_neg h2]
        by_cases h3 : c.toNat = 8
        · rw [if_pos h3]
          show parseJStringAux (backslashChar ::
            ('b' :: (escapeJsonString cs ++ quoteChar :: r))) = _
          rw [parseJStringAux, if_neg (by decide : ¬(backslashChar = quoteChar)), if_pos rfl]
          rw [parseJEscape, if_neg (by decide : ¬('b' = quoteChar)),
            if_neg (by decide : ¬('b' = backslashChar)), if_neg (by decide : ¬('b' = '/')),
            if_pos rfl, ih]
          simp only [Option.map_eq_map, Option.map_some']
          rw [charOfNat_eq_of_toNat h3]
        · rw [if_neg h3]
          by_cases h4 : c.toNat = 9
          · rw [if_pos h4]
            show parseJStringAux (backslashChar ::
              ('t' :: (escapeJsonString cs ++ quoteChar :: r))) = _
            rw [parseJStringAux, if_neg (by decide : ¬(backslashChar = quoteChar)), if_pos rfl]
            rw [parseJEscape, if_neg (by decide : ¬('t' = quoteChar)),
              if_neg (by decide : ¬('t' = backslashChar)), if_neg (by decide : ¬('t' = '/')),
              if_neg (by decide : ¬('t' = 'b')), if_neg (by decide : ¬('t' = 'f')),
              if_neg (by decide : ¬('t' = 'n')), if_neg (by decide : ¬('t' = 'r')),
              if_pos rfl, ih]
            simp only [Option.map_eq_map, Option.map_some']
            rw [charOfNat_eq_of_toNat h4]
          · rw [if_neg h4]
            by_cases h5 : c.toNat = 10
            · rw [if_pos h5]
              show parseJStringAux (backslashChar ::
                ('n' :: (escapeJsonString cs ++ quoteChar :: r))) = _
              rw [parseJStringAux, if_neg (by decide : ¬(backslashChar = quoteChar)),
                if_pos rfl]
              rw [parseJEscape, if_neg (by decide : ¬('n' = quoteChar)),
                if_neg (by decide : ¬('n' = backslashChar)), if_neg (by decide : ¬('n' = '/')),
                if_neg (by decide : ¬('n' = 'b')), if_neg (by decide : ¬('n' = 'f')),
                if_pos rfl, ih]
              simp only [Option.map_eq_map, Option.map_some']
              rw [charOfNat_eq_of_toNat h5]
            · rw [if_neg h5]
              by_cases h6 : c.toNat = 12
              · rw [if_pos h6]
                show parseJStringAux (backslashChar ::
                  ('f' :: (escapeJsonString cs ++ quoteChar :: r))) = _
                rw [parseJStringAux, if_neg (by decide : ¬(backslashChar = quoteChar)),
                  if_pos rfl]
                rw [parseJEscape, if_neg (by decide : ¬('f' = quoteChar)),
                  if_neg (by decide : ¬('f' = backslashChar)),
                  if_neg (by decide : ¬('f' = '/')), if_neg (by decide : ¬('f' = 'b')),
                  if_pos rfl, ih]
                simp only [Option.map_eq_map, Option.map_some']
                rw [charOfNat_eq_of_toNat h6]
              · rw [if_neg h6]
                by_cases h7 : c.toNat = 13
                · rw [if_pos h7]
                  show parseJStringAux (backslashChar ::
                    ('r' :: (escapeJsonString cs ++ quoteChar :: r))) = _
                  rw [parseJStringAux, if_neg (by decide : ¬(backslashChar = quoteChar)),
                    if_pos rfl]
                  rw [parseJEscape, if_neg (by decide : ¬('r' = quoteChar)),
                    if_neg (by decide : ¬('r' = backslashChar)),
                    if_neg (by decide : ¬('r' = '/')), if_neg (by decide : ¬('r' = 'b')),
                    if_neg (by decide : ¬('r' = 'f')), if_neg (by decide : ¬('r' = 'n')),
                    if_pos rfl, ih]
                  simp only [Option.map_eq_map, Option.map_some']
                  rw [charOfNat_eq_of_toNat h7]
                · rw [if_neg h7]
                  by_cases h8 : c.toNat < 32
                  · rw [if_pos h8]
                    show parseJStringAux (backslashChar :: ('u' :: ('0' :: ('0' ::
                      (hexDigitLower (c.toNat / 16) :: (hexDigitLower (c.toNat % 16) ::
                        (escapeJsonString cs ++ quoteChar :: r))))))) = _
                    rw [parseJStringAux, if_neg (by decide : ¬(backslashChar = quoteChar)),
                      if_pos rfl]
                    rw [parseJEscape, if_neg (by decide : ¬('u' = quoteChar)),
                      if_neg (by decide : ¬('u' = backslashChar)),
                      if_neg (by decide : ¬('u' = '/')), if_neg (by decide : ¬('u' = 'b')),
                      if_neg (by decide : ¬('u' = 'f')), if_neg (by decide : ¬('u' = 'n')),
                      if_neg (by decide : ¬('u' = 'r')), if_neg (by decide : ¬('u' = 't')),
                      if_pos rfl]
                    rw [parseJUnicode]
                    unfold hexQuadVal
                    rw [show hexCharVal '0' = some 0 from rfl,
                      hexCharVal_lower (by omega : c.toNat / 16 < 16),
                      hexCharVal_lower (by omega : c.toNat % 16 < 16)]
                    dsimp only
                    have hcp : 4096 * 0 + 256 * 0 + 16 * (c.toNat / 16) + c.toNat % 16 =
                        c.toNat := by omega
                    rw [hcp, if_neg (by omega : ¬(55296 ≤ c.toNat ∧ c.toNat ≤ 57343)), ih]
                    simp only [Option.map_eq_map, Option.map_some']
                    rw [Char.ofNat_toNat]
                  · rw [if_neg h8]
                    show parseJStringAux (c :: (escapeJsonString cs ++ quoteChar :: r)) = _
                    rw [parseJStringAux, if_neg h1, if_neg h2, if_neg h8, ih]
                    simp only [Option.map_eq_map, Option.map_some']

theorem skipWs_cons_notws {c : Char} (h : isJsonWs c = false) (r : LC) :
    skipWs (c :: r) = c :: r := by
  simp [skipWs, List.dropWhile_cons, h]

theorem dropLit_append (p r : LC) : dropLit p (p ++ r) = some r := by
  unfold dropLit
  rw [if_pos (listStartsWith_append_self p r), List.drop_left]

theorem char_ne_of_toNat_ne {c d : Char} (h : ¬(c.toNat = d.toNat)) : ¬(c = d) := fun he =>
  h (by rw [he])

theorem intToLC_head (i : Int) :
    ∃ c cs, intToLC i = c :: cs ∧ (c = '-' ∨ isDigitCh c = true) := by
  unfold intToLC
  by_cases h : i < 0
  · rw [if_pos h]
    exact ⟨'-', natToLC i.natAbs, rfl, Or.inl rfl⟩
  · rw [if_neg h]
    cases hnl : natToLC i.toNat with
    | nil => exact absurd hnl (natToLC_ne_nil _)
    | cons c cs =>
      exact ⟨c, cs, rfl, Or.inr (natToLC_all_digits _ c (by rw [hnl]; simp))⟩

theorem numHead_facts {c : Char} (h : c = '-' ∨ isDigitCh c = true) :
    isJsonWs c = false ∧ ¬(c = 'n') ∧ ¬(c = 't') ∧ ¬(c = 'f') ∧ ¬(c = quoteChar) ∧
      ¬(c = '[') ∧ ¬(c = lbraceChar) ∧ ¬(c = ']') ∧ ¬(c = rbraceChar) := by
  have hn : c.toNat = 45 ∨ (48 ≤ c.toNat ∧ c.toNat ≤ 57) := by
    rcases h with rfl | hd
    · left
      rfl
    · right
      simp only [isDigitCh, Bool.and_eq_true, decide_eq_true_eq] at hd
      exact hd
  refine ⟨?_, ?_, ?_, ?_, ?_, ?_, ?_, ?_, ?_⟩
  · simp only [isJsonWs, Bool.or_eq_false_iff, decide_eq_false_iff_not]
    omega
  · exact char_ne_of_toNat_ne (by rw [show ('n').toNat = 110 from rfl]; omega)
  · exact char_ne_of_toNat_ne (by rw [show ('t').toNat = 116 from rfl]; omega)
  · exact char_ne_of_toNat_ne (by rw [show ('f').toNat = 102 from rfl]; omega)
  · exact char_ne_of_toNat_ne (by rw [show quoteChar.toNat = 34 from rfl]; omega)
  · exact char_ne_of_toNat_ne (by rw [show ('[').toNat = 91 from rfl]; omega)
  · exact char_ne_of_toNat_ne (by rw [show lbraceChar.toNat = 123 from rfl]; omega)
  · exact char_ne_of_toNat_ne (by rw [show (']').toNat = 93 from rfl]; omega)
  · exact char_ne_of_toNat_ne (by rw [show rbraceChar.toNat = 125 from rfl]; omega)

theorem jsonStringify_head (v : JsonValue) :
    ∃ c cs, jsonStringify v = c :: cs ∧ isJsonWs c = false ∧ ¬(c = ']') ∧ ¬(c = rbraceChar) := by
  cases v with
  | num i =>
    obtain ⟨c, cs, heq, hor⟩ := intToLC_head i
    obtain ⟨hw, _, _, _, _, _, _, h93, h125⟩ := numHead_facts hor
    exact ⟨c, cs, heq, hw, h93, h125⟩
  | bool b => cases b <;> exact ⟨_, _, rfl, by decide, by decide, by decide⟩
  | null => exact ⟨'n', _, rfl, by decide, by decide, by decide⟩
  | str s => exact ⟨quoteChar, _, rfl, by decide, by decide, by decide⟩
  | arr vs => exact ⟨'[', _, rfl, by decide, by decide, by decide⟩
  | obj fs => exact ⟨lbraceChar, _, rfl, by decide, by decide, by decide⟩

theorem parseJ_roundtrip : ∀ f : Nat,
    (∀ (v : JsonValue) (r : LC), jsize v ≤ f → headNotSat isDigitCh r →
      parseJValue f (jsonStringify v ++ r) = some (v, r)) ∧
    (∀ (v : JsonValue) (vs : List JsonValue) (r : LC), jsizeElems (v :: vs) ≤ f →
      parseJElems f (jsonStringify v ++ (stringifyElemsTail vs ++ (']' :: r))) =
        some (v :: vs, r)) ∧
    (∀ (k : LC) (v : JsonValue) (fs : List (LC × JsonValue)) (r : LC),
      jsizeFields ((k, v) :: fs) ≤ f →
      parseJMembers f (quoteChar :: (escapeJsonString k ++ (quoteChar :: (':' ::
        (jsonStringify v ++ (stringifyFieldsTail fs ++ (rbraceChar :: r))))))) =
        some ((k, v) :: fs, r)) := by
  intro f
  induction f using Nat.strong_induction_on with
  | _ f ih =>
    cases f with
    | zero =>
      refine ⟨?_, ?_, ?_⟩
      · intro v r hsz _
        exfalso
        cases v <;> simp [jsize] at hsz
      · intro v vs r hsz
        exfalso
        simp [jsizeElems] at hsz
      · intro k v fs r hsz
        exfalso
        simp [jsizeFields] at hsz
    | succ g =>
      obtain ⟨ihP, ihQ, ihR⟩ := ih g (Nat.lt_succ_self g)
      refine ⟨?_, ?_, ?_⟩
      · -- values
        intro v r hsz hr
        cases v with
        | null =>
          show parseJValue (g + 1) ('n' :: ('u' :: ('l' :: ('l' :: r)))) = _
          rw [parseJValue, skipWs_cons_notws (by decide)]
          dsimp only
          rw [if_pos rfl,
            show ('u' :: ('l' :: ('l' :: r))) = strToLC "ull" ++ r from rfl, dropLit_append]
          simp only [Option.map_eq_map, Option.map_some']
        | bool b =>
          cases b with
          | true =>
            show parseJValue (g + 1) ('t' :: ('r' :: ('u' :: ('e' :: r)))) = _
            rw [parseJValue, skipWs_cons_notws (by decide)]
            dsimp only
            rw [if_neg (by decide : ¬('t' = 'n')), if_pos rfl,
              show ('r' :: ('u' :: ('e' :: r))) = strToLC "rue" ++ r from rfl, dropLit_append]
            simp only [Option.map_eq_map, Option.map_some']
          | false =>
            show parseJValue (g + 1) ('f' :: ('a' :: ('l' :: ('s' :: ('e' :: r))))) = _
            rw [parseJValue, skipWs_cons_notws (by decide)]
            dsimp only
            rw [if_neg (by decide : ¬('f' = 'n')), if_neg (by decide : ¬('f' = 't')),
              if_pos rfl,
              show ('a' :: ('l' :: ('s' :: ('e' :: r)))) = strToLC "alse" ++ r from rfl,
              dropLit_append]
            simp only [Option.map_eq_map, Option.map_some']
        | num i =>
          obtain ⟨c, cs, heq, hor⟩ := intToLC_head i
          obtain ⟨hw, hn, ht, hf, hq, hlbk, hlbr, _, _⟩ := numHead_facts hor
          show parseJValue (g + 1) (intToLC i ++ r) = _
          rw [heq]
          show parseJValue (g + 1) (c :: (cs ++ r)) = _
          rw [parseJValue, skipWs_cons_notws hw]
          dsimp only
          rw [if_neg hn, if_neg ht, if_neg hf, if_neg hq, if_neg hlbk, if_neg hlbr]
          rw [show c :: (cs ++ r) = (c :: cs) ++ r from rfl, ← heq, parseJNumber_intToLC i hr]
        | str s =>
          show parseJValue (g + 1) (quoteChar :: ((escapeJsonString s ++ [quoteChar]) ++ r)) = _
          rw [List.append_assoc, List.singleton_append]
          rw [parseJValue, skipWs_cons_notws (by decide)]
          dsimp only
          rw [if_neg (by decide : ¬(quoteChar = 'n')), if_neg (by decide : ¬(quoteChar = 't')),
            if_neg (by decide : ¬(quoteChar = 'f')), if_pos rfl, parseJStringAux_escape]
          simp only [Option.map_eq_map, Option.map_some']
        | arr vs =>
          cases vs with
          | nil =>
            show parseJValue (g + 1) ('[' :: (']' :: r)) = _
            rw [parseJValue, skipWs_cons_notws (by decide)]
            dsimp only
            rw [if_neg (by decide : ¬('[' = 'n')), if_neg (by decide : ¬('[' = 't')),
              if_neg (by decide : ¬('[' = 'f')), if_neg (by decide : ¬('[' = quoteChar)),
              if_pos rfl, skipWs_cons_notws (by decide)]
            dsimp only
            rw [if_pos rfl]
          | cons v vs =>
            simp only [jsize, jsizeElems] at hsz
            show parseJValue (g + 1)
              (('[' :: (jsonStringify v ++ stringifyElemsTail vs) ++ [']']) ++ r) = _
            simp only [List.cons_append, List.append_assoc, List.nil_append]
            rw [parseJValue, skipWs_cons_notws (by decide)]
            dsimp only
            rw [if_neg (by decide : ¬('[' = 'n')), if_neg (by decide : ¬('[' = 't')),
              if_neg (by decide : ¬('[' = 'f')), if_neg (by decide : ¬('[' = quoteChar)),
              if_pos rfl]
            obtain ⟨hc, hcs, hheq, hw, hne, _⟩ := jsonStringify_head v
            rw [hheq, List.cons_append, skipWs_cons_notws hw]
            dsimp only
            rw [if_neg hne, ← List.cons_append, ← hheq,
              ihQ v vs r (by simp only [jsizeElems]; omega)]
            simp only [Option.map_eq_map, Option.map_some']
        | obj fs =>
          cases fs with
          | nil =>
            show parseJValue (g + 1) (lbraceChar :: (rbraceChar :: r)) = _
            rw [parseJValue, skipWs_cons_notws (by decide)]
            dsimp only
            rw [if_neg (by decide : ¬(lbraceChar = 'n')),
              if_neg (by decide : ¬(lbraceChar = 't')),
              if_neg (by decide : ¬(lbraceChar = 'f')),
              if_neg (by decide : ¬(lbraceChar = quoteChar)),
              if_neg (by decide : ¬(lbraceChar = '[')), if_pos rfl,
              skipWs_cons_notws (by decide)]
            dsimp only
            rw [if_pos rfl]
          | cons kv fs =>
            obtain ⟨k, v⟩ := kv
            simp only [jsize, jsizeFields] at hsz
            show parseJValue (g + 1)
              ((lbraceChar :: (quoteChar :: escapeJsonString k ++ quoteChar :: ':' ::
                jsonStringify v ++ stringifyFieldsTail fs) ++ [rbraceChar]) ++ r) = _
            simp only [List.cons_append, List.append_assoc, List.nil_append]
            rw [parseJValue, skipWs_cons_notws (by decide)]
            dsimp only
            rw [if_neg (by decide : ¬(lbraceChar = 'n')),
              if_neg (by decide : ¬(lbraceChar = 't')),
              if_neg (by decide : ¬(lbraceChar = 'f')),
              if_neg (by decide : ¬(lbraceChar = quoteChar)),
              if_neg (by decide : ¬(lbraceChar = '[')), if_pos rfl,
              skipWs_cons_notws (by decide)]
            dsimp only
            rw [if_neg (by decide : ¬(quoteChar = rbraceChar)),
              ihR k v fs r (by simp only [jsizeFields]; omega)]
            simp only [Option.map_eq_map, Option.map_some']
      · -- array elements
        intro v vs r hsz
        simp only [jsizeElems] at hsz
        rw [parseJElems]
        have hguard : headNotSat isDigitCh (stringifyElemsTail vs ++ (']' :: r)) := by
          cases vs with
          | nil => exact (by decide : isDigitCh ']' = false)
          | cons v2 vs2 => exact (by decide : isDigitCh ',' = false)
        rw [ihP v (stringifyElemsTail vs ++ (']' :: r)) (by omega) hguard]
        dsimp only
        cases vs with
        | nil =>
          simp only [stringifyElemsTail, List.nil_append]
          rw [skipWs_cons_notws (by decide)]
          dsimp only
          rw [if_neg (by decide : ¬(']' = ',')), if_pos rfl]
        | cons v2 vs2 =>
          simp only [stringifyElemsTail, List.cons_append, List.append_assoc]
          rw [skipWs_cons_notws (by decide)]
          dsimp only
          rw [if_pos rfl, ihQ v2 vs2 r (by simp only [jsizeElems] at hsz ⊢; omega)]
          simp only [Option.map_eq_map, Option.map_some']
      · -- object members
        intro k v fs r hsz
        simp only [jsizeFields] at hsz
        rw [parseJMembers, skipWs_cons_notws (by decide)]
        dsimp only
        rw [if_pos rfl, parseJStringAux_escape]
        dsimp only
        rw [skipWs_cons_notws (by decide)]
        dsimp only
        rw [if_pos rfl]
        have hguard : headNotSat isDigitCh (stringifyFieldsTail fs ++ (rbraceChar :: r)) := by
          cases fs with
          | nil => exact (by decide : isDigitCh rbraceChar = false)
          | cons kv2 fs2 =>
            obtain ⟨k2, v2⟩ := kv2
            exact (by decide : isDigitCh ',' = false)
        rw [ihP v (stringifyFieldsTail fs ++ (rbraceChar :: r)) (by omega) hguard]
        dsimp only
        cases fs with
        | nil =>
          simp only [stringifyFieldsTail, List.nil_append]
          rw [skipWs_cons_notws (by decide)]
          dsimp only
          rw [if_neg (by decide : ¬(rbraceChar = ',')), if_pos rfl]
        | cons kv2 fs2 =>
          obtain ⟨k2, v2⟩ := kv2
          simp only [stringifyFieldsTail, List.cons_append, List.append_assoc]
          rw [skipWs_cons_notws (by decide)]
          dsimp only
          rw [if_pos rfl, ihR k2 v2 fs2 r (by simp only [jsizeFields] at hsz ⊢; omega)]
          simp only [Option.map_eq_map, Option.map_some']

theorem jsize_pos (v : JsonValue) : 1 ≤ jsize v := by
  cases v <;> (simp only [jsize]; omega)

theorem jsizeElems_pos (vs : List JsonValue) : 1 ≤ jsizeElems vs := by
  cases vs with
  | nil => simp [jsizeElems]
  | cons v vs => simp only [jsizeElems]; omega

theorem jsizeFields_pos (fs : List (LC × JsonValue)) : 1 ≤ jsizeFields fs := by
  cases fs with
  | nil => simp [jsizeFields]
  | cons kv fs =>
    obtain ⟨k, v⟩ := kv
    simp only [jsizeFields]
    omega

theorem intToLC_ne_nil (i : Int) : intToLC i ≠ [] := by
  unfold intToLC
  by_cases h : i < 0
  · rw [if_pos h]
    simp
  · rw [if_neg h]
    exact natToLC_ne_nil _

theorem jsize_le_bound : ∀ N : Nat,
    (∀ v : JsonValue, jsize v ≤ N → jsize v ≤ 2 * (jsonStringify v).length) ∧
    (∀ vs : List JsonValue, jsizeElems vs ≤ N →
      jsizeElems vs ≤ 2 * (stringifyElemsTail vs).length + 2) ∧
    (∀ fs : List (LC × JsonValue), jsizeFields fs ≤ N →
      jsizeFields fs ≤ 2 * (stringifyFieldsTail fs).length + 2) := by
  intro N
  induction N with
  | zero =>
    refine ⟨?_, ?_, ?_⟩
    · intro v hsz
      exact absurd hsz (by have := jsize_pos v; omega)
    · intro vs hsz
      exact absurd hsz (by have := jsizeElems_pos vs; omega)
    · intro fs hsz
      exact absurd hsz (by have := jsizeFields_pos fs; omega)
  | succ N ih =>
    obtain ⟨ihP, ihQ, ihR⟩ := ih
    refine ⟨?_, ?_, ?_⟩
    · intro v hsz
      cases v with
      | null => decide
      | bool b => cases b <;> decide
      | num i =>
        have hne : intToLC i ≠ [] := intToLC_ne_nil i
        have hlen : 0 < (intToLC i).length := List.length_pos.mpr hne
        simp only [jsize]
        show 1 ≤ 2 * (intToLC i).length
        omega
      | str s =>
        simp only [jsize, jsonStringify, List.length_cons, List.length_append]
        omega
      | arr vs =>
        cases vs with
        | nil => decide
        | cons v vs2 =>
          simp only [jsize, jsizeElems] at hsz ⊢
          have h1 := ihP v (by omega)
          have h2 := ihQ vs2 (by omega)
          simp only [jsonStringify, stringifyElems, List.length_cons, List.length_append,
            List.length_singleton]
          omega
      | obj fs =>
        cases fs with
        | nil => decide
        | cons kv fs2 =>
          obtain ⟨k, v⟩ := kv
          simp only [jsize, jsizeFields] at hsz ⊢
          have h1 := ihP v (by omega)
          have h2 := ihR fs2 (by omega)
          simp only [jsonStringify, stringifyFields, List.length_cons, List.length_append,
            List.length_singleton]
          omega
    · intro vs hsz
      cases vs with
      | nil => decide
      | cons v vs2 =>
        simp only [jsizeElems] at hsz ⊢
        have h1 := ihP v (by omega)
        have h2 := ihQ vs2 (by omega)
        simp only [stringifyElemsTail, List.length_cons, List.length_append]
        omega
    · intro fs hsz
      cases fs with
      | nil => decide
      | cons kv fs2 =>
        obtain ⟨k, v⟩ := kv
        simp only [jsizeFields] at hsz ⊢
        have h1 := ihP v (by omega)
        have h2 := ihR fs2 (by omega)
        simp only [stringifyFieldsTail, List.length_cons, List.length_append]
        omega

/-- `JSON.parse` inverts `JSON.stringify` on every JSON value of the model. -/
theorem jsonParse_stringify (v : JsonValue) : jsonParse (jsonStringify v) = some v := by
  unfold jsonParse
  have hb := (jsize_le_bound (jsize v)).1 v (le_refl _)
  have hp := (parseJ_roundtrip (2 * (jsonStringify v).length + 2)).1 v [] (by omega) trivial
  rw [List.append_nil] at hp
  rw [hp]
  simp [skipWs]

theorem objGet_objSet_self (m : JsObj) (k v : LC) : objGet (objSet m k v) k = some v := by
  induction m with
  | nil => simp [objSet, objGet]
  | cons e rest ih =>
    obtain ⟨k2, v2⟩ := e
    by_cases h : k2 = k
    · simp [objSet, objGet, h]
    · simp [objSet, objGet, h, ih]

theorem objGet_eraseKey_self (m : JsObj) (k : LC) : objGet (eraseKey m k) k = none := by
  induction m with
  | nil => rfl
  | cons e rest ih =>
    obtain ⟨k2, v2⟩ := e
    by_cases h : k2 = k
    · simp only [eraseKey, decide_not] at ih
      simp [eraseKey, List.filter_cons, h, objGet, decide_not, ih]
    · simp only [eraseKey, decide_not] at ih
      simp [eraseKey, List.filter_cons, h, objGet, decide_not, ih]

theorem takeUntilEq_no_eq {a : LC} (h : '=' ∉ a) : takeUntilEq a = a := by
  induction a with
  | nil => rfl
  | cons c cs ih =>
    simp only [List.mem_cons, not_or] at h
    simp [takeUntilEq, Ne.symm h.1, ih h.2]

theorem takeUntilEq_append {a b : LC} (h : '=' ∉ a) : takeUntilEq (a ++ '=' :: b) = a := by
  induction a with
  | nil => simp [takeUntilEq]
  | cons c cs ih =>
    simp only [List.mem_cons, not_or] at h
    simp [takeUntilEq, Ne.symm h.1, ih h.2]

theorem dropThroughEq_append {a b : LC} (h : '=' ∉ a) : dropThroughEq (a ++ '=' :: b) = b := by
  induction a with
  | nil => simp [dropThroughEq]
  | cons c cs ih =>
    simp only [List.mem_cons, not_or] at h
    simp [dropThroughEq, Ne.symm h.1, ih h.2]

theorem containsCh_append_eq (a b : LC) : containsCh '=' (a ++ '=' :: b) = true := by
  simp [containsCh, List.any_append, List.any_cons]

theorem pair_ws_free {k val : LC} (hval : ∀ c ∈ val, isJsWs c = false) :
    ∀ c ∈ encodeURIComponent k ++ '=' :: val, isJsWs c = false := by
  intro c hc
  simp only [List.mem_append, List.mem_cons] at hc
  rcases hc with hc | hc | hc
  · exact encode_no_ws k c hc
  · subst hc
    decide
  · exact hval c hc

theorem pair_no_semi {k val : LC} (hval : ';' ∉ val) :
    ';' ∉ encodeURIComponent k ++ '=' :: val := by
  intro hc
  simp only [List.mem_append, List.mem_cons] at hc
  rcases hc with hc | hc | hc
  · exact semicolon_not_mem_encode k hc
  · exact absurd hc (by decide)
  · exact hval hc

theorem getCookie_entry {k val d : LC} (hsemi : ';' ∉ val)
    (hws : ∀ c ∈ val, isJsWs c = false)
    (hdec : decodeURIComponent val = some d) :
    CookieService.getCookie (some [(encodeURIComponent k, val)]) k =
      cookieDecodeResult d := by
  unfold CookieService.getCookie
  show CookieService.getCookieLoop (encodeURIComponent k ++ ['='])
    (splitOnChar ';' (encodeURIComponent k ++ '=' :: val)) = _
  rw [splitOnChar_no_sep ';' _ (pair_no_semi hsemi)]
  rw [CookieService.getCookieLoop]
  rw [trimChars_eq_self (pair_ws_free hws)]
  rw [show encodeURIComponent k ++ '=' :: val = (encodeURIComponent k ++ ['=']) ++ val from
    by simp]
  rw [if_pos (listStartsWith_append_self _ _), List.drop_left, hdec]
  rfl

theorem getCookie_empty_jar (k : LC) :
    CookieService.getCookie (some []) k = JsonValue.null := by
  unfold CookieService.getCookie
  show CookieService.getCookieLoop (encodeURIComponent k ++ ['=']) [[]] = _
  rw [CookieService.getCookieLoop]
  rw [show trimChars [] = [] from rfl, listStartsWith_nil_right (by simp)]
  simp only [Bool.false_eq_true, if_false]
  rfl

theorem decodeURIComponent_encode_sep_encode (v1 v2 : LC) :
    decodeURIComponent (encodeURIComponent v1 ++ '=' :: encodeURIComponent v2) =
      some (v1 ++ '=' :: v2) := by
  rw [decodeURIComponent_encode_append, decodeURIComponent_cons_raw (by decide),
    decodeURIComponent_encode]
  rfl

theorem parseCookieLoop_seg {k val v1 : LC} (seg : LC) (rest : List LC) (acc : JsObj)
    (hseg : trimChars seg = encodeURIComponent k ++ '=' :: val)
    (hk : k ≠ [])
    (hv1eq : takeUntilEq val = encodeURIComponent v1)
    (hv1 : v1 ≠ []) :
    CookieService.parseCookieLoop (seg :: rest) acc =
      CookieService.parseCookieLoop rest (objSet acc k v1) := by
  rw [CookieService.parseCookieLoop]
  simp only [hseg,
    takeUntilEq_append (eqsign_not_mem_encode k), containsCh_append_eq,
    dropThroughEq_append (eqsign_not_mem_encode k), hv1eq, decodeURIComponent_encode,
    if_true]
  simp [encodeURIComponent_ne_nil hk, encodeURIComponent_ne_nil hv1]

theorem parseCookieLoop_seg_empty (k : LC) (rest : List LC) (acc : JsObj) :
    CookieService.parseCookieLoop ((encodeURIComponent k ++ ['=']) :: rest) acc =
      CookieService.parseCookieLoop rest acc := by
  rw [CookieService.parseCookieLoop]
  have hws : ∀ c ∈ ([] : LC), isJsWs c = false := by intro c hc; exact absurd hc (by simp)
  simp only [trimChars_eq_self (pair_ws_free hws),
    takeUntilEq_append (eqsign_not_mem_encode k), containsCh_append_eq,
    dropThroughEq_append (eqsign_not_mem_encode k)]
  by_cases hk0 : encodeURIComponent k = [] <;> simp [hk0, takeUntilEq]

theorem expiresPart_shape (lt : LC) (now : Int) (e : Option JsExpires) :
    CookieService.expiresPart (';' :: lt) now e = [] ∨
      ∃ t, CookieService.expiresPart (';' :: lt) now e = ';' :: t := by
  cases e with
  | none => exact Or.inl rfl
  | some je =>
    cases je with
    | num n =>
      by_cases h : n = 0
      · exact Or.inl (by simp [CookieService.expiresPart, h])
      · exact Or.inr ⟨lt ++ dateToUTCString (now + n * 86400000),
          by simp [CookieService.expiresPart, h]⟩
    | date ms => exact Or.inr ⟨lt ++ dateToUTCString ms, by simp [CookieService.expiresPart]⟩

theorem pathPart_shape (lt rt : LC) (p : Option LC) :
    ∃ t, CookieService.pathPart (';' :: lt) (';' :: rt) p = ';' :: t := by
  cases p with
  | none => exact ⟨rt, rfl⟩
  | some pp =>
    by_cases h : pp = []
    · exact ⟨rt, by simp [CookieService.pathPart, h]⟩
    · exact ⟨lt ++ pp, by simp [CookieService.pathPart, h]⟩

theorem setCookieString_shape (now : Int) (k : LC) (v : JsonValue) (opts : CookieOptions) :
    ∃ R, CookieService.setCookieString now k v opts =
      CookieService.cookiePairPart k v ++ ';' :: R := by
  unfold CookieService.setCookieString
  rw [show strToLC "; expires=" = ';' :: strToLC " expires=" from rfl,
    show strToLC "; path=" = ';' :: strToLC " path=" from rfl,
    show strToLC "; path=/" = ';' :: strToLC " path=/" from rfl]
  obtain ⟨tP, hP⟩ := pathPart_shape (strToLC " path=") (strToLC " path=/") opts.path
  rcases expiresPart_shape (strToLC " expires=") now opts.expires with hE | ⟨tE, hE⟩
  · refine ⟨tP ++ (CookieService.domainPart (strToLC "; domain=") opts.domain ++
      (CookieService.securePart (strToLC "; secure") opts.secure ++
        CookieService.sameSitePart (strToLC "; samesite=") sameSiteLower opts.sameSite)), ?_⟩
    rw [hE, hP]
    simp [List.append_assoc]
  · refine ⟨tE ++ (CookieService.pathPart (';' :: strToLC " path=")
      (';' :: strToLC " path=/") opts.path ++
      (CookieService.domainPart (strToLC "; domain=") opts.domain ++
      (CookieService.securePart (strToLC "; secure") opts.secure ++
        CookieService.sameSitePart (strToLC "; samesite=") sameSiteLower opts.sameSite))), ?_⟩
    rw [hE]
    simp [List.append_assoc]

theorem documentCookieSet_pair (now : Int) (jar : CookieJar) (k sv : LC) (R : LC) :
    documentCookieSet now jar
        ((encodeURIComponent k ++ '=' :: encodeURIComponent sv) ++ ';' :: R) =
      match findExpiresAttr (splitOnChar ';' R) with
      | some e =>
        if e < now then eraseKey jar (encodeURIComponent k)
        else objSet jar (encodeURIComponent k) (encodeURIComponent sv)
      | none => objSet jar (encodeURIComponent k) (encodeURIComponent sv) := by
  unfold documentCookieSet
  rw [splitOnChar_append,
    splitOnChar_no_sep ';' _ (pair_no_semi (semicolon_not_mem_encode sv)),
    List.singleton_append]
  dsimp only
  simp only [trimChars_eq_self (pair_ws_free (encode_no_ws sv)),
    takeUntilEq_append (eqsign_not_mem_encode k),
    dropThroughEq_append (eqsign_not_mem_encode k)]

theorem documentCookieSet_setCookieString_default (now : Int) (jar : CookieJar) (k : LC)
    (v : JsonValue) :
    documentCookieSet now jar (CookieService.setCookieString now k v {}) =
      objSet jar (encodeURIComponent k)
        (encodeURIComponent (CookieService.cookieStringValue v)) := by
  have hstr : CookieService.setCookieString now k v {} =
      (encodeURIComponent k ++ '=' ::
        encodeURIComponent (CookieService.cookieStringValue v)) ++
        ';' :: strToLC " path=/" := by
    unfold CookieService.setCookieString CookieService.cookiePairPart
    dsimp only
    simp only [CookieService.expiresPart, CookieService.pathPart, CookieService.domainPart,
      CookieService.securePart, CookieService.sameSitePart, List.append_nil,
      List.append_assoc, List.cons_append]
    rfl
  rw [hstr, documentCookieSet_pair]
  rw [show findExpiresAttr (splitOnChar ';' (strToLC " path=/")) = none from rfl]

theorem documentCookieSet_setCookieString_cases (now : Int) (jar : CookieJar) (k : LC)
    (v : JsonValue) (opts : CookieOptions) :
    documentCookieSet now jar (CookieService.setCookieString now k v opts) =
        eraseKey jar (encodeURIComponent k) ∨
      documentCookieSet now jar (CookieService.setCookieString now k v opts) =
        objSet jar (encodeURIComponent k)
          (encodeURIComponent (CookieService.cookieStringValue v)) := by
  obtain ⟨R, hR⟩ := setCookieString_shape now k v opts
  rw [hR, show CookieService.cookiePairPart k v = encodeURIComponent k ++ '=' ::
    encodeURIComponent (CookieService.cookieStringValue v) from rfl, documentCookieSet_pair]
  cases findExpiresAttr (splitOnChar ';' R) with
  | none => exact Or.inr rfl
  | some e =>
    by_cases h : e < now
    · exact Or.inl (by simp [h])
    · exact Or.inr (by simp [h])

theorem removeCookie_erases (now : Int) (jar : CookieJar) (k : LC) (hnow : 0 < now) :
    CookieService.removeCookie now (some jar) k {} =
      some (eraseKey jar (encodeURIComponent k)) := by
  unfold CookieService.removeCookie CookieService.setCookie
  dsimp only
  have hstr : CookieService.setCookieString now k (JsonValue.str [])
      { path := none, domain := none, expires := some (JsExpires.date 0) } =
      (encodeURIComponent k ++ '=' ::
        encodeURIComponent (CookieService.cookieStringValue (JsonValue.str []))) ++
        ';' :: strToLC " expires=0; path=/" := by
    unfold CookieService.setCookieString CookieService.cookiePairPart
    dsimp only
    simp only [CookieService.expiresPart, CookieService.pathPart, CookieService.domainPart,
      CookieService.securePart, CookieService.sameSitePart, List.append_nil,
      List.append_assoc, List.cons_append]
    rfl
  rw [hstr, documentCookieSet_pair]
  rw [show findExpiresAttr (splitOnChar ';' (strToLC " expires=0; path=/")) = some 0 from rfl]
  dsimp only
  rw [if_pos hnow]

theorem listContainsSub_self_append (pat r : LC) : listContainsSub pat (pat ++ r) = true := by
  cases hpr : pat ++ r with
  | nil =>
    rw [List.append_eq_nil] at hpr
    rw [hpr.1]
    rfl
  | cons c rest =>
    rw [listContainsSub, ← hpr, listStartsWith_append_self]
    simp

theorem listContainsSub_cons_of (pat : LC) (c : Char) (rest : LC)
    (h : listContainsSub pat rest = true) : listContainsSub pat (c :: rest) = true := by
  rw [listContainsSub, h]
  simp

theorem listContainsSub_append_left (pat a rest : LC)
    (h : listContainsSub pat rest = true) : listContainsSub pat (a ++ rest) = true := by
  induction a with
  | nil => exact h
  | cons c cs ih => exact listContainsSub_cons_of pat c _ ih

theorem listContainsSub_of_eq {pat s : LC} (a b : LC) (h : s = a ++ (pat ++ b)) :
    listContainsSub pat s = true := by
  rw [h]
  exact listContainsSub_append_left pat a _ (listContainsSub_self_append pat b)

theorem hasHttpOnlySeg_append_semi (a b : LC) :
    hasHttpOnlySeg (a ++ ';' :: b) = (hasHttpOnlySeg a || hasHttpOnlySeg b) := by
  unfold hasHttpOnlySeg
  rw [splitOnChar_append, List.any_append]

theorem hasHttpOnlySeg_no_semi {a : LC} (ha : ';' ∉ a) :
    hasHttpOnlySeg a = decide (trimChars a = strToLC "HttpOnly") := by
  unfold hasHttpOnlySeg
  rw [splitOnChar_no_sep ';' a ha]
  simp [List.any]

theorem hasHttpOnlySeg_append_httponly (g : LC) :
    hasHttpOnlySeg (g ++ strToLC "; HttpOnly") = true := by
  rw [show strToLC "; HttpOnly" = ';' :: strToLC " HttpOnly" from rfl,
    hasHttpOnlySeg_append_semi,
    show hasHttpOnlySeg (strToLC " HttpOnly") = true from rfl]
  simp

theorem hasHttpOnlySeg_parts (a : LC) (parts : List LC)
    (ha : hasHttpOnlySeg a = false)
    (hp : ∀ p ∈ parts, p = [] ∨ ∃ b, p = ';' :: b ∧ hasHttpOnlySeg b = false) :
    hasHttpOnlySeg (a ++ concatAll parts) = false := by
  induction parts generalizing a with
  | nil =>
    show hasHttpOnlySeg (a ++ []) = false
    rw [List.append_nil]
    exact ha
  | cons p ps ih =>
    have hps : ∀ q ∈ ps, q = [] ∨ ∃ b, q = ';' :: b ∧ hasHttpOnlySeg b = false :=
      fun q hq => hp q (by simp [hq])
    rcases hp p (by simp) with hpe | ⟨b, hpb, hbf⟩
    · subst hpe
      show hasHttpOnlySeg (a ++ concatAll ps) = false
      exact ih a ha hps
    · subst hpb
      show hasHttpOnlySeg (a ++ ((';' :: b) ++ concatAll ps)) = false
      rw [show (';' :: b) ++ concatAll ps = ';' :: (b ++ concatAll ps) from rfl,
        hasHttpOnlySeg_append_semi, ha]
      simp only [Bool.false_or]
      exact ih b hbf hps

theorem mem_dropWhileWs_of_mem {c : Char} {l : LC} (hc : isJsWs c = false) (h : c ∈ l) :
    c ∈ l.dropWhile isJsWs := by
  induction l with
  | nil => exact absurd h (by simp)
  | cons x xs ih =>
    rw [List.dropWhile_cons]
    by_cases hx : isJsWs x = true
    · rw [if_pos hx]
      rcases List.mem_cons.mp h with rfl | h2
      · rw [hx] at hc
        exact absurd hc (by simp)
      · exact ih h2
    · rw [if_neg hx]
      exact h

theorem mem_trim_of_mem {c : Char} {l : LC} (hc : isJsWs c = false) (h : c ∈ l) :
    c ∈ trimChars l := by
  unfold trimChars dropTrailingWs dropLeadingWs
  exact List.mem_reverse.mpr
    (mem_dropWhileWs_of_mem hc (List.mem_reverse.mpr (mem_dropWhileWs_of_mem hc h)))

theorem intToLC_chars (i : Int) :
    ∀ x ∈ intToLC i, x.toNat = 45 ∨ (48 ≤ x.toNat ∧ x.toNat ≤ 57) := by
  intro x hx
  have hdig : ∀ n : Nat, ∀ y ∈ natToLC n, 48 ≤ y.toNat ∧ y.toNat ≤ 57 := by
    intro n y hy
    have := natToLC_all_digits n y hy
    simp only [isDigitCh, Bool.and_eq_true, decide_eq_true_eq] at this
    exact this
  unfold intToLC at hx
  by_cases h : i < 0
  · rw [if_pos h] at hx
    rcases List.mem_cons.mp hx with rfl | h2
    · left
      rfl
    · right
      exact hdig _ x h2
  · rw [if_neg h] at hx
    right
    exact hdig _ x hx

theorem intToLC_no_semi (i : Int) : ';' ∉ intToLC i := by
  intro h
  have := intToLC_chars i ';' h
  revert this
  decide

theorem intToLC_no_ws (i : Int) : ∀ x ∈ intToLC i, isJsWs x = false := by
  intro x hx
  have h := intToLC_chars i x hx
  simp only [isJsWs, Bool.or_eq_false_iff, Bool.and_eq_false_iff]
  constructor
  · simp only [decide_eq_false_iff_not]
    omega
  · by_cases h9 : 9 ≤ x.toNat
    · right
      simp only [decide_eq_false_iff_not]
      omega
    · left
      simp only [decide_eq_false_iff_not]
      omega

/-- C1: the round-trip claim as stated fails for the cookie adapter: a string
value whose text is itself valid JSON (here `"123"`) is stored raw and comes
back re-parsed as a number, not as the original string. -/
theorem C1_roundtrip_counterexample :
    CookieService.getCookie
        (CookieService.setCookie 0 (some []) (strToLC "k")
          (JsonValue.str (strToLC "123")) {}) (strToLC "k") = JsonValue.num 123 ∧
    JsonValue.num 123 ≠ JsonValue.str (strToLC "123") :=
  ⟨rfl, fun h => nomatch h⟩

/-- C1 (amended): in a browser context `setItem` then `getItem` round-trips
EVERY JSON value, unconditionally, on both storage adapters; `setCookie` then
`getCookie` round-trips every value whose cookie string form is not itself
parseable JSON (a string value whose text parses as JSON comes back re-parsed
instead, as the counterexample shows). -/
theorem C1_roundtrip (st : StorageMap) (k : LC) (v : JsonValue) (now : Int) :
    LocalStorageService.getItem (LocalStorageService.setItem (some st) k v) k = v ∧
    SessionStorageService.getItem (SessionStorageService.setItem (some st) k v) k = v ∧
    ((∀ s, v = JsonValue.str s → jsonParse s = none) →
      CookieService.getCookie (CookieService.setCookie now (some []) k v {}) k = v) := by
  refine ⟨?_, ?_, ?_⟩
  · simp only [LocalStorageService.setItem, LocalStorageService.getItem,
      objGet_objSet_self, jsonParse_stringify]
  · simp only [SessionStorageService.setItem, SessionStorageService.getItem,
      objGet_objSet_self, jsonParse_stringify]
  · intro hstr
    unfold CookieService.setCookie
    dsimp only
    rw [documentCookieSet_setCookieString_default]
    rw [show objSet ([] : CookieJar) (encodeURIComponent k)
        (encodeURIComponent (CookieService.cookieStringValue v)) =
      [(encodeURIComponent k, encodeURIComponent (CookieService.cookieStringValue v))]
      from rfl]
    rw [getCookie_entry (semicolon_not_mem_encode _) (encode_no_ws _)
      (decodeURIComponent_encode _)]
    cases v with
    | str s =>
      rw [show CookieService.cookieStringValue (JsonValue.str s) = s from rfl]
      unfold cookieDecodeResult
      rw [hstr s rfl]
    | null =>
      simp [cookieDecodeResult, CookieService.cookieStringValue, jsonParse_stringify]
    | bool b =>
      simp [cookieDecodeResult, CookieService.cookieStringValue, jsonParse_stringify]
    | num i =>
      simp [cookieDecodeResult, CookieService.cookieStringValue, jsonParse_stringify]
    | arr l =>
      simp [cookieDecodeResult, CookieService.cookieStringValue, jsonParse_stringify]
    | obj fs =>
      simp [cookieDecodeResult, CookieService.cookieStringValue, jsonParse_stringify]

theorem C1_roundtrip_witness :
    LocalStorageService.getItem
        (LocalStorageService.setItem (some []) (strToLC "k")
          (JsonValue.str (strToLC "hello"))) (strToLC "k") =
      JsonValue.str (strToLC "hello") ∧
    SessionStorageService.getItem
        (SessionStorageService.setItem (some []) (strToLC "k")
          (JsonValue.str (strToLC "hello"))) (strToLC "k") =
      JsonValue.str (strToLC "hello") ∧
    CookieService.getCookie
        (CookieService.setCookie 0 (some []) (strToLC "k")
          (JsonValue.str (strToLC "hello")) {}) (strToLC "k") =
      JsonValue.str (strToLC "hello") :=
  ⟨(C1_roundtrip [] (strToLC "k") (JsonValue.str (strToLC "hello")) 0).1,
    (C1_roundtrip [] (strToLC "k") (JsonValue.str (strToLC "hello")) 0).2.1,
    (C1_roundtrip [] (strToLC "k") (JsonValue.str (strToLC "hello")) 0).2.2
      (fun s hs => by injection hs with h; rw [← h]; rfl)⟩

/-- C3: on stored text that is not valid JSON, `getCookie` falls back to the
raw URL-decoded string while the storage adapters' `getItem` returns the
not-found sentinel null. -/
theorem C3_decode_fallback (k s : LC) (st : StorageMap) (hinvalid : jsonParse s = none) :
    CookieService.getCookie (some [(encodeURIComponent k, encodeURIComponent s)]) k =
      JsonValue.str s ∧
    LocalStorageService.getItem (some (objSet st k s)) k = JsonValue.null ∧
    SessionStorageService.getItem (some (objSet st k s)) k = JsonValue.null := by
  refine ⟨?_, ?_, ?_⟩
  · rw [getCookie_entry (semicolon_not_mem_encode s) (encode_no_ws s)
      (decodeURIComponent_encode s)]
    unfold cookieDecodeResult
    rw [hinvalid]
  · simp only [LocalStorageService.getItem, objGet_objSet_self, hinvalid]
  · simp only [SessionStorageService.getItem, objGet_objSet_self, hinvalid]

theorem C3_decode_fallback_witness :
    CookieService.getCookie
        (some [(encodeURIComponent (strToLC "k"), encodeURIComponent (strToLC "hello"))])
        (strToLC "k") = JsonValue.str (strToLC "hello") ∧
    LocalStorageService.getItem (some (objSet [] (strToLC "k") (strToLC "hello")))
      (strToLC "k") = JsonValue.null ∧
    SessionStorageService.getItem (some (objSet [] (strToLC "k") (strToLC "hello")))
      (strToLC "k") = JsonValue.null :=
  C3_decode_fallback (strToLC "k") (strToLC "hello") [] rfl

/-- C4: without a browser context every method returns its neutral default:
reads yield null / empty / false / zero, and writes return the absent store
unchanged. -/
theorem C4_no_context (now : Int) (k : LC) (v : JsonValue) (opts : CookieOptions) :
    CookieService.setCookie now none k v opts = none ∧
    CookieService.getCookie none k = JsonValue.null ∧
    CookieService.removeCookie now none k opts = none ∧
    CookieService.hasCookie none k = false ∧
    CookieService.getAllCookies none = [] ∧
    CookieService.clearAllCookies now none = none ∧
    CookieService.parseCookiesFromHeader none = [] ∧
    LocalStorageService.setItem none k v = none ∧
    LocalStorageService.getItem none k = JsonValue.null ∧
    LocalStorageService.removeItem none k = none ∧
    LocalStorageService.clear none = none ∧
    LocalStorageService.getAllKeys none = [] ∧
    LocalStorageService.hasItem none k = false ∧
    LocalStorageService.getLength none = 0 ∧
    SessionStorageService.setItem none k v = none ∧
    SessionStorageService.getItem none k = JsonValue.null ∧
    SessionStorageService.removeItem none k = none ∧
    SessionStorageService.clear none = none ∧
    SessionStorageService.getAllKeys none = [] ∧
    SessionStorageService.hasItem none k = false ∧
    SessionStorageService.getLength none = 0 :=
  ⟨rfl, rfl, rfl, rfl, rfl, rfl, rfl, rfl, rfl, rfl, rfl, rfl, rfl, rfl, rfl, rfl,
    rfl, rfl, rfl, rfl, rfl⟩

/-- C7: parsing the header built for the plain string value "v" under key "k"
with default options yields a mapping with k ↦ v, at every current time. -/
theorem C7_header_roundtrip (now : Int) :
    objGet (CookieService.parseCookiesFromHeader
        (some (CookieService.createSetCookieHeader now (strToLC "k")
          (JsonValue.str (strToLC "v")) {}))) (strToLC "k") = some (strToLC "v") := rfl

/-- C9: `hasItem` and `getItem` disagree after `setItem key null`: the stored
text is the four-character string "null", so `hasItem` is true while `getItem`
returns null, for both storage adapters. -/
theorem C9_null_disagreement (st : StorageMap) (k : LC) :
    LocalStorageService.setItem (some st) k JsonValue.null =
      some (objSet st k (strToLC "null")) ∧
    LocalStorageService.hasItem (LocalStorageService.setItem (some st) k JsonValue.null) k
      = true ∧
    LocalStorageService.getItem (LocalStorageService.setItem (some st) k JsonValue.null) k
      = JsonValue.null ∧
    SessionStorageService.setItem (some st) k JsonValue.null =
      some (objSet st k (strToLC "null")) ∧
    SessionStorageService.hasItem
      (SessionStorageService.setItem (some st) k JsonValue.null) k = true ∧
    SessionStorageService.getItem
      (SessionStorageService.setItem (some st) k JsonValue.null) k = JsonValue.null := by
  refine ⟨rfl, ?_, ?_, rfl, ?_, ?_⟩
  · simp only [LocalStorageService.setItem, LocalStorageService.hasItem, objGet_objSet_self]
  · simp only [LocalStorageService.setItem, LocalStorageService.getItem,
      objGet_objSet_self, jsonParse_stringify]
  · simp only [SessionStorageService.setItem, SessionStorageService.hasItem,
      objGet_objSet_self]
  · simp only [SessionStorageService.setItem, SessionStorageService.getItem,
      objGet_objSet_self, jsonParse_stringify]

/-- C2: the first-match-wins claim fails: object assignment makes the LAST
occurrence of a duplicated key win ("a=1; a=2" maps a to "2", not "1"). -/
theorem C2_duplicate_counterexample :
    objGet (CookieService.parseCookiesFromHeader (some (strToLC "a=1; a=2")))
        (strToLC "a") = some (strToLC "2") ∧
    objGet (CookieService.getAllCookies
        (some [(strToLC "a", strToLC "1"), (strToLC "a", strToLC "2")]))
        (strToLC "a") = some (strToLC "2") ∧
    strToLC "2" ≠ strToLC "1" :=
  ⟨rfl, rfl, by decide⟩

/-- C2 (amended): when the same key occurs twice in the parsed string, both
`parseCookiesFromHeader` and `getAllCookies` map it to the value of its LAST
occurrence (each assignment overwrites the previous one). -/
theorem C2_duplicate_last_wins (k v1 v2 : LC) (hk : k ≠ []) (hv1 : v1 ≠ [])
    (hv2 : v2 ≠ []) :
    objGet (CookieService.parseCookiesFromHeader
        (some ((encodeURIComponent k ++ '=' :: encodeURIComponent v1) ++
          ';' :: ' ' :: (encodeURIComponent k ++ '=' :: encodeURIComponent v2)))) k
      = some v2 ∧
    objGet (CookieService.getAllCookies
        (some [(encodeURIComponent k, encodeURIComponent v1),
               (encodeURIComponent k, encodeURIComponent v2)])) k = some v2 := by
  have htrim1 : trimChars (encodeURIComponent k ++ '=' :: encodeURIComponent v1) =
      encodeURIComponent k ++ '=' :: encodeURIComponent v1 :=
    trimChars_eq_self (pair_ws_free (encode_no_ws v1))
  have htrim2 : trimChars (' ' :: (encodeURIComponent k ++ '=' :: encodeURIComponent v2)) =
      encodeURIComponent k ++ '=' :: encodeURIComponent v2 := by
    rw [trimChars_space_cons]
    exact trimChars_eq_self (pair_ws_free (encode_no_ws v2))
  have hns2 : ';' ∉ ' ' :: (encodeURIComponent k ++ '=' :: encodeURIComponent v2) := by
    intro hmem
    rcases List.mem_cons.mp hmem with h | h
    · exact absurd h (by decide)
    · exact pair_no_semi (semicolon_not_mem_encode v2) h
  have hloop : ∀ acc : JsObj,
      CookieService.parseCookieLoop
        [encodeURIComponent k ++ '=' :: encodeURIComponent v1,
         ' ' :: (encodeURIComponent k ++ '=' :: encodeURIComponent v2)] acc =
        some (objSet (objSet acc k v1) k v2) := by
    intro acc
    rw [parseCookieLoop_seg _ _ _ htrim1 hk
        (takeUntilEq_no_eq (eqsign_not_mem_encode v1)) hv1,
      parseCookieLoop_seg _ _ _ htrim2 hk
        (takeUntilEq_no_eq (eqsign_not_mem_encode v2)) hv2]
    rfl
  constructor
  · unfold CookieService.parseCookiesFromHeader
    dsimp only
    rw [if_neg (by simp)]
    rw [splitOnChar_append,
      splitOnChar_no_sep ';' _ (pair_no_semi (semicolon_not_mem_encode v1)),
      splitOnChar_no_sep ';' _ hns2]
    rw [show ([encodeURIComponent k ++ '=' :: encodeURIComponent v1] ++
        [' ' :: (encodeURIComponent k ++ '=' :: encodeURIComponent v2)]) =
      [encodeURIComponent k ++ '=' :: encodeURIComponent v1,
       ' ' :: (encodeURIComponent k ++ '=' :: encodeURIComponent v2)] from rfl]
    rw [hloop]
    rw [objGet_objSet_self]
  · unfold CookieService.getAllCookies
    dsimp only
    rw [show docCookieString [(encodeURIComponent k, encodeURIComponent v1),
        (encodeURIComponent k, encodeURIComponent v2)] =
      (encodeURIComponent k ++ '=' :: encodeURIComponent v1) ++
        ';' :: ' ' :: (encodeURIComponent k ++ '=' :: encodeURIComponent v2) from rfl]
    rw [splitOnChar_append,
      splitOnChar_no_sep ';' _ (pair_no_semi (semicolon_not_mem_encode v1)),
      splitOnChar_no_sep ';' _ hns2]
    rw [show ([encodeURIComponent k ++ '=' :: encodeURIComponent v1] ++
        [' ' :: (encodeURIComponent k ++ '=' :: encodeURIComponent v2)]) =
      [encodeURIComponent k ++ '=' :: encodeURIComponent v1,
       ' ' :: (encodeURIComponent k ++ '=' :: encodeURIComponent v2)] from rfl]
    rw [hloop]
    rw [objGet_objSet_self]

theorem C2_duplicate_last_wins_witness :
    objGet (CookieService.parseCookiesFromHeader
        (some ((encodeURIComponent (strToLC "a") ++ '=' ::
            encodeURIComponent (strToLC "1")) ++
          ';' :: ' ' :: (encodeURIComponent (strToLC "a") ++ '=' ::
            encodeURIComponent (strToLC "2"))))) (strToLC "a")
      = some (strToLC "2") ∧
    objGet (CookieService.getAllCookies
        (some [(encodeURIComponent (strToLC "a"), encodeURIComponent (strToLC "1")),
               (encodeURIComponent (strToLC "a"), encodeURIComponent (strToLC "2"))]))
        (strToLC "a") = some (strToLC "2") :=
  C2_duplicate_last_wins (strToLC "a") (strToLC "1") (strToLC "2")
    (by decide) (by decide) (by decide)

/-- C6: after `set` then `remove`, `get` returns the not-found sentinel and
`has` is false, for the cookie adapter (on an initially empty jar, at any
positive time) and for both storage adapters (on any store). -/
theorem C6_removal (now : Int) (k : LC) (v : JsonValue) (st : StorageMap)
    (hnow : 0 < now) :
    CookieService.getCookie
        (CookieService.removeCookie now
          (CookieService.setCookie now (some []) k v {}) k {}) k = JsonValue.null ∧
    CookieService.hasCookie
        (CookieService.removeCookie now
          (CookieService.setCookie now (some []) k v {}) k {}) k = false ∧
    LocalStorageService.getItem
        (LocalStorageService.removeItem (LocalStorageService.setItem (some st) k v) k) k
      = JsonValue.null ∧
    LocalStorageService.hasItem
        (LocalStorageService.removeItem (LocalStorageService.setItem (some st) k v) k) k
      = false ∧
    SessionStorageService.getItem
        (SessionStorageService.removeItem
          (SessionStorageService.setItem (some st) k v) k) k = JsonValue.null ∧
    SessionStorageService.hasItem
        (SessionStorageService.removeItem
          (SessionStorageService.setItem (some st) k v) k) k = false := by
  have hset : CookieService.setCookie now (some []) k v {} =
      some [(encodeURIComponent k,
        encodeURIComponent (CookieService.cookieStringValue v))] := by
    unfold CookieService.setCookie
    dsimp only
    rw [documentCookieSet_setCookieString_default]
    rfl
  have hrem : CookieService.removeCookie now
      (CookieService.setCookie now (some []) k v {}) k {} = some [] := by
    rw [hset, removeCookie_erases now _ k hnow]
    simp [eraseKey]
  have hget : CookieService.getCookie
      (CookieService.removeCookie now
        (CookieService.setCookie now (some []) k v {}) k {}) k = JsonValue.null := by
    rw [hrem]
    exact getCookie_empty_jar k
  refine ⟨hget, ?_, ?_, ?_, ?_, ?_⟩
  · unfold CookieService.hasCookie
    rw [hget]
  · simp only [LocalStorageService.setItem, LocalStorageService.removeItem,
      LocalStorageService.getItem, objGet_eraseKey_self]
  · simp only [LocalStorageService.setItem, LocalStorageService.removeItem,
      LocalStorageService.hasItem, objGet_eraseKey_self]
  · simp only [SessionStorageService.setItem, SessionStorageService.removeItem,
      SessionStorageService.getItem, objGet_eraseKey_self]
  · simp only [SessionStorageService.setItem, SessionStorageService.removeItem,
      SessionStorageService.hasItem, objGet_eraseKey_self]

theorem C6_removal_witness :
    CookieService.getCookie
        (CookieService.removeCookie 1
          (CookieService.setCookie 1 (some []) (strToLC "k") JsonValue.null {})
          (strToLC "k") {}) (strToLC "k") = JsonValue.null ∧
    CookieService.hasCookie
        (CookieService.removeCookie 1
          (CookieService.setCookie 1 (some []) (strToLC "k") JsonValue.null {})
          (strToLC "k") {}) (strToLC "k") = false ∧
    LocalStorageService.getItem
        (LocalStorageService.removeItem
          (LocalStorageService.setItem (some []) (strToLC "k") JsonValue.null)
          (strToLC "k")) (strToLC "k") = JsonValue.null ∧
    LocalStorageService.hasItem
        (LocalStorageService.removeItem
          (LocalStorageService.setItem (some []) (strToLC "k") JsonValue.null)
          (strToLC "k")) (strToLC "k") = false ∧
    SessionStorageService.getItem
        (SessionStorageService.removeItem
          (SessionStorageService.setItem (some []) (strToLC "k") JsonValue.null)
          (strToLC "k")) (strToLC "k") = JsonValue.null ∧
    SessionStorageService.hasItem
        (SessionStorageService.removeItem
          (SessionStorageService.setItem (some []) (strToLC "k") JsonValue.null)
          (strToLC "k")) (strToLC "k") = false :=
  C6_removal 1 (strToLC "k") JsonValue.null [] (by decide)

/-- C10: a pair whose value part is empty is omitted by `getAllCookies` and
`parseCookiesFromHeader`, and a value containing an unencoded `=` is truncated
at it, while `getCookie` on the same key returns the full (possibly empty)
decoded value. -/
theorem C10_value_truncation (k v1 v2 : LC) (hk : k ≠ []) (hv1 : v1 ≠ [])
    (hjson : jsonParse (v1 ++ '=' :: v2) = none) :
    CookieService.getAllCookies (some [(encodeURIComponent k, [])]) = [] ∧
    CookieService.parseCookiesFromHeader (some (encodeURIComponent k ++ ['='])) = [] ∧
    CookieService.getCookie (some [(encodeURIComponent k, [])]) k = JsonValue.str [] ∧
    CookieService.getAllCookies
        (some [(encodeURIComponent k,
          encodeURIComponent v1 ++ '=' :: encodeURIComponent v2)]) = [(k, v1)] ∧
    CookieService.parseCookiesFromHeader
        (some (encodeURIComponent k ++ '=' ::
          (encodeURIComponent v1 ++ '=' :: encodeURIComponent v2))) = [(k, v1)] ∧
    CookieService.getCookie
        (some [(encodeURIComponent k,
          encodeURIComponent v1 ++ '=' :: encodeURIComponent v2)]) k =
      JsonValue.str (v1 ++ '=' :: v2) := by
  refine ⟨?_, ?_, ?_, ?_, ?_, ?_⟩
  · unfold CookieService.getAllCookies
    dsimp only
    rw [show docCookieString [(encodeURIComponent k, [])] =
      encodeURIComponent k ++ ['='] from rfl]
    rw [splitOnChar_no_sep ';' _ (pair_no_semi (by simp))]
    rw [parseCookieLoop_seg_empty]
    rfl
  · unfold CookieService.parseCookiesFromHeader
    dsimp only
    rw [if_neg (by simp)]
    rw [splitOnChar_no_sep ';' _ (pair_no_semi (by simp))]
    rw [parseCookieLoop_seg_empty]
    rfl
  · rw [getCookie_entry (by simp) (by simp)
      (show decodeURIComponent ([] : LC) = some [] from rfl)]
    rfl
  · unfold CookieService.getAllCookies
    dsimp only
    rw [show docCookieString [(encodeURIComponent k,
        encodeURIComponent v1 ++ '=' :: encodeURIComponent v2)] =
      encodeURIComponent k ++ '=' ::
        (encodeURIComponent v1 ++ '=' :: encodeURIComponent v2) from rfl]
    rw [splitOnChar_no_sep ';' _
      (pair_no_semi (pair_no_semi (semicolon_not_mem_encode v2)))]
    rw [parseCookieLoop_seg _ _ _
      (trimChars_eq_self (pair_ws_free (pair_ws_free (encode_no_ws v2)))) hk
      (takeUntilEq_append (eqsign_not_mem_encode v1)) hv1]
    rfl
  · unfold CookieService.parseCookiesFromHeader
    dsimp only
    rw [if_neg (by simp)]
    rw [splitOnChar_no_sep ';' _
      (pair_no_semi (pair_no_semi (semicolon_not_mem_encode v2)))]
    rw [parseCookieLoop_seg _ _ _
      (trimChars_eq_self (pair_ws_free (pair_ws_free (encode_no_ws v2)))) hk
      (takeUntilEq_append (eqsign_not_mem_encode v1)) hv1]
    rfl
  · rw [getCookie_entry (pair_no_semi (semicolon_not_mem_encode v2))
      (pair_ws_free (encode_no_ws v2)) (decodeURIComponent_encode_sep_encode v1 v2)]
    unfold cookieDecodeResult
    rw [hjson]

theorem C10_value_truncation_witness :
    CookieService.getAllCookies
        (some [(encodeURIComponent (strToLC "k"), [])]) = [] ∧
    CookieService.parseCookiesFromHeader
        (some (encodeURIComponent (strToLC "k") ++ ['='])) = [] ∧
    CookieService.getCookie (some [(encodeURIComponent (strToLC "k"), [])])
        (strToLC "k") = JsonValue.str [] ∧
    CookieService.getAllCookies
        (some [(encodeURIComponent (strToLC "k"),
          encodeURIComponent (strToLC "a") ++ '=' ::
            encodeURIComponent (strToLC "b"))]) = [(strToLC "k", strToLC "a")] ∧
    CookieService.parseCookiesFromHeader
        (some (encodeURIComponent (strToLC "k") ++ '=' ::
          (encodeURIComponent (strToLC "a") ++ '=' ::
            encodeURIComponent (strToLC "b")))) = [(strToLC "k", strToLC "a")] ∧
    CookieService.getCookie
        (some [(encodeURIComponent (strToLC "k"),
          encodeURIComponent (strToLC "a") ++ '=' ::
            encodeURIComponent (strToLC "b"))]) (strToLC "k") =
      JsonValue.str (strToLC "a" ++ '=' :: strToLC "b") :=
  C10_value_truncation (strToLC "k") (strToLC "a") (strToLC "b")
    (by decide) (by decide) rfl

/-- C5: the numeric-expiry claim fails for the falsy number 0: `options.expires`
is tested for truthiness, so an expiry of 0 days is silently dropped and no
expires directive is appended. -/
theorem C5_expiry_counterexample :
    CookieService.setCookieString 0 (strToLC "a") (JsonValue.str (strToLC "b"))
        { expires := some (JsExpires.num 0) } = strToLC "a=b; path=/" ∧
    CookieService.createSetCookieHeader 0 (strToLC "a") (JsonValue.str (strToLC "b"))
        { expires := some (JsExpires.num 0) } = strToLC "a=b; Path=/" ∧
    listContainsSub (strToLC "expires=") (strToLC "a=b; path=/") = false ∧
    listContainsSub (strToLC "Expires=") (strToLC "a=b; Path=/") = false :=
  ⟨rfl, rfl, rfl, rfl⟩

/-- C5 (amended): for every NONZERO numeric expiry n, `setCookie` and
`createSetCookieHeader` append an expires directive carrying the absolute
timestamp now + n days (n * 86400000 ms), and with no path given both append
the root path directive. -/
theorem C5_expiry_default_path (now : Int) (k : LC) (v : JsonValue) (n : Int)
    (hn : n ≠ 0) :
    listContainsSub (strToLC "expires=" ++ dateToUTCString (now + n * 86400000))
      (CookieService.setCookieString now k v { expires := some (JsExpires.num n) })
      = true ∧
    listContainsSub (strToLC "path=/")
      (CookieService.setCookieString now k v { expires := some (JsExpires.num n) })
      = true ∧
    listContainsSub (strToLC "Expires=" ++ dateToUTCString (now + n * 86400000))
      (CookieService.createSetCookieHeader now k v { expires := some (JsExpires.num n) })
      = true ∧
    listContainsSub (strToLC "Path=/")
      (CookieService.createSetCookieHeader now k v { expires := some (JsExpires.num n) })
      = true := by
  refine ⟨?_, ?_, ?_, ?_⟩
  · apply listContainsSub_of_eq (CookieService.cookiePairPart k v ++ strToLC "; ")
      (strToLC "; path=/")
    unfold CookieService.setCookieString
    dsimp only
    simp only [CookieService.expiresPart, CookieService.pathPart,
      CookieService.domainPart, CookieService.securePart, CookieService.sameSitePart,
      if_neg hn, List.append_nil, List.append_assoc, List.cons_append]
    rfl
  · apply listContainsSub_of_eq
      (CookieService.cookiePairPart k v ++
        (strToLC "; expires=" ++ dateToUTCString (now + n * 86400000)) ++ strToLC "; ")
      []
    unfold CookieService.setCookieString
    dsimp only
    simp only [CookieService.expiresPart, CookieService.pathPart,
      CookieService.domainPart, CookieService.securePart, CookieService.sameSitePart,
      if_neg hn, List.append_nil, List.append_assoc, List.cons_append]
    rfl
  · apply listContainsSub_of_eq (CookieService.cookiePairPart k v ++ strToLC "; ")
      (strToLC "; Path=/")
    unfold CookieService.createSetCookieHeader
    dsimp only
    simp only [CookieService.expiresPart, CookieService.pathPart,
      CookieService.domainPart, CookieService.securePart, CookieService.sameSitePart,
      if_neg hn, List.append_nil, List.append_assoc, List.cons_append]
    rfl
  · apply listContainsSub_of_eq
      (CookieService.cookiePairPart k v ++
        (strToLC "; Expires=" ++ dateToUTCString (now + n * 86400000)) ++ strToLC "; ")
      []
    unfold CookieService.createSetCookieHeader
    dsimp only
    simp only [CookieService.expiresPart, CookieService.pathPart,
      CookieService.domainPart, CookieService.securePart, CookieService.sameSitePart,
      if_neg hn, List.append_nil, List.append_assoc, List.cons_append]
    rfl

theorem C5_expiry_default_path_witness :
    listContainsSub (strToLC "expires=" ++ dateToUTCString (0 + 1 * 86400000))
      (CookieService.setCookieString 0 (strToLC "a") (JsonValue.str (strToLC "b"))
        { expires := some (JsExpires.num 1) }) = true ∧
    listContainsSub (strToLC "path=/")
      (CookieService.setCookieString 0 (strToLC "a") (JsonValue.str (strToLC "b"))
        { expires := some (JsExpires.num 1) }) = true ∧
    listContainsSub (strToLC "Expires=" ++ dateToUTCString (0 + 1 * 86400000))
      (CookieService.createSetCookieHeader 0 (strToLC "a") (JsonValue.str (strToLC "b"))
        { expires := some (JsExpires.num 1) }) = true ∧
    listContainsSub (strToLC "Path=/")
      (CookieService.createSetCookieHeader 0 (strToLC "a") (JsonValue.str (strToLC "b"))
        { expires := some (JsExpires.num 1) }) = true :=
  C5_expiry_default_path 0 (strToLC "a") (JsonValue.str (strToLC "b")) 1 (by decide)

theorem hasHttpOnlySeg_of_eqsign {b : LC} (hsemi : ';' ∉ b) (heq : '=' ∈ b) :
    hasHttpOnlySeg b = false := by
  rw [hasHttpOnlySeg_no_semi hsemi]
  simp only [decide_eq_false_iff_not]
  intro h
  have hm := mem_trim_of_mem (show isJsWs '=' = false from by decide) heq
  rw [h] at hm
  exact absurd hm (by decide)

theorem expiresPart_httponly_ok (lt : LC) (now : Int) (e : Option JsExpires)
    (hlts : ';' ∉ lt) (hlte : '=' ∈ lt) :
    CookieService.expiresPart (';' :: lt) now e = [] ∨
      ∃ b, CookieService.expiresPart (';' :: lt) now e = ';' :: b ∧
        hasHttpOnlySeg b = false := by
  have hb : ∀ ms : Int, hasHttpOnlySeg (lt ++ dateToUTCString ms) = false := by
    intro ms
    apply hasHttpOnlySeg_of_eqsign
    · intro hmem
      rcases List.mem_append.mp hmem with h | h
      · exact hlts h
      · exact intToLC_no_semi ms h
    · exact List.mem_append.mpr (Or.inl hlte)
  cases e with
  | none => exact Or.inl rfl
  | some je =>
    cases je with
    | num n =>
      by_cases h0 : n = 0
      · exact Or.inl (by simp [CookieService.expiresPart, h0])
      · exact Or.inr ⟨lt ++ dateToUTCString (now + n * 86400000),
          by simp [CookieService.expiresPart, h0], hb _⟩
    | date ms =>
      exact Or.inr ⟨lt ++ dateToUTCString ms, by simp [CookieService.expiresPart], hb _⟩

theorem pathPart_httponly_ok (lt rt : LC) (p : Option LC)
    (hlts : ';' ∉ lt) (hlte : '=' ∈ lt)
    (hrt : hasHttpOnlySeg rt = false)
    (hp : ∀ q, p = some q → ';' ∉ q) :
    ∃ b, CookieService.pathPart (';' :: lt) (';' :: rt) p = ';' :: b ∧
      hasHttpOnlySeg b = false := by
  cases p with
  | none => exact ⟨rt, rfl, hrt⟩
  | some q =>
    by_cases hq : q = []
    · exact ⟨rt, by simp [CookieService.pathPart, hq], hrt⟩
    · refine ⟨lt ++ q, by simp [CookieService.pathPart, hq], ?_⟩
      apply hasHttpOnlySeg_of_eqsign
      · intro hmem
        rcases List.mem_append.mp hmem with h | h
        · exact hlts h
        · exact hp q rfl h
      · exact List.mem_append.mpr (Or.inl hlte)

theorem domainPart_httponly_ok (lt : LC) (d : Option LC)
    (hlts : ';' ∉ lt) (hlte : '=' ∈ lt)
    (hd : ∀ q, d = some q → ';' ∉ q) :
    CookieService.domainPart (';' :: lt) d = [] ∨
      ∃ b, CookieService.domainPart (';' :: lt) d = ';' :: b ∧
        hasHttpOnlySeg b = false := by
  cases d with
  | none => exact Or.inl rfl
  | some q =>
    by_cases hq : q = []
    · exact Or.inl (by simp [CookieService.domainPart, hq])
    · right
      refine ⟨lt ++ q, by simp [CookieService.domainPart, hq], ?_⟩
      apply hasHttpOnlySeg_of_eqsign
      · intro hmem
        rcases List.mem_append.mp hmem with h | h
        · exact hlts h
        · exact hd q rfl h
      · exact List.mem_append.mpr (Or.inl hlte)

theorem securePart_httponly_ok (lt : LC) (b : Bool) (hlt : hasHttpOnlySeg lt = false) :
    CookieService.securePart (';' :: lt) b = [] ∨
      ∃ t, CookieService.securePart (';' :: lt) b = ';' :: t ∧
        hasHttpOnlySeg t = false := by
  cases b with
  | false => exact Or.inl rfl
  | true => exact Or.inr ⟨lt, rfl, hlt⟩

theorem sameSitePart_httponly_ok (lt : LC) (render : SameSiteMode → LC)
    (ss : Option SameSiteMode)
    (hlts : ';' ∉ lt) (hlte : '=' ∈ lt)
    (hrender : ∀ m, ';' ∉ render m) :
    CookieService.sameSitePart (';' :: lt) render ss = [] ∨
      ∃ b, CookieService.sameSitePart (';' :: lt) render ss = ';' :: b ∧
        hasHttpOnlySeg b = false := by
  cases ss with
  | none => exact Or.inl rfl
  | some m =>
    right
    refine ⟨lt ++ render m, rfl, ?_⟩
    apply hasHttpOnlySeg_of_eqsign
    · intro hmem
      rcases List.mem_append.mp hmem with h | h
      · exact hlts h
      · exact hrender m h
    · exact List.mem_append.mpr (Or.inl hlte)

theorem directives_httponly_ok (now : Int) (opts : CookieOptions)
    (elt plt prt dlt slt sslt : LC) (render : SameSiteMode → LC)
    (helts : ';' ∉ elt) (helte : '=' ∈ elt)
    (hplts : ';' ∉ plt) (hplte : '=' ∈ plt)
    (hprt : hasHttpOnlySeg prt = false)
    (hdlts : ';' ∉ dlt) (hdlte : '=' ∈ dlt)
    (hslt : hasHttpOnlySeg slt = false)
    (hsslts : ';' ∉ sslt) (hsslte : '=' ∈ sslt)
    (hrender : ∀ m, ';' ∉ render m)
    (hpath : ∀ p, opts.path = some p → ';' ∉ p)
    (hdom : ∀ q, opts.domain = some q → ';' ∉ q) :
    ∀ p ∈ [CookieService.expiresPart (';' :: elt) now opts.expires,
           CookieService.pathPart (';' :: plt) (';' :: prt) opts.path,
           CookieService.domainPart (';' :: dlt) opts.domain,
           CookieService.securePart (';' :: slt) opts.secure,
           CookieService.sameSitePart (';' :: sslt) render opts.sameSite],
      p = [] ∨ ∃ b, p = ';' :: b ∧ hasHttpOnlySeg b = false := by
  intro p hp
  simp only [List.mem_cons, List.not_mem_nil, or_false] at hp
  rcases hp with rfl | rfl | rfl | rfl | rfl
  · exact expiresPart_httponly_ok elt now opts.expires helts helte
  · exact Or.inr (pathPart_httponly_ok plt prt opts.path hplts hplte hprt hpath)
  · exact domainPart_httponly_ok dlt opts.domain hdlts hdlte hdom
  · exact securePart_httponly_ok slt opts.secure hslt
  · exact sameSitePart_httponly_ok sslt render opts.sameSite hsslts hsslte hrender

/-- C8: the "never contains HttpOnly for any input" half of the claim fails as
literally stated: a crafted path option smuggles an HttpOnly directive into the
string `setCookie` composes. -/
theorem C8_httponly_counterexample :
    hasHttpOnlySeg (CookieService.setCookieString 0 (strToLC "a")
      (JsonValue.str (strToLC "b"))
      { path := some (strToLC "/; HttpOnly") }) = true := rfl

/-- C8 (amended): for path and domain options free of `;`, the header built by
`createSetCookieHeader` contains an HttpOnly directive exactly when
`options.httpOnly` is set, and the string `setCookie` composes never does. -/
theorem C8_httponly (now : Int) (k : LC) (v : JsonValue) (opts : CookieOptions)
    (hpath : ∀ p, opts.path = some p → ';' ∉ p)
    (hdom : ∀ q, opts.domain = some q → ';' ∉ q) :
    hasHttpOnlySeg (CookieService.createSetCookieHeader now k v opts) = opts.httpOnly ∧
    hasHttpOnlySeg (CookieService.setCookieString now k v opts) = false := by
  have hpair : hasHttpOnlySeg (CookieService.cookiePairPart k v) = false := by
    apply hasHttpOnlySeg_of_eqsign
    · exact pair_no_semi (semicolon_not_mem_encode _)
    · exact List.mem_append.mpr (Or.inr (List.mem_cons_self _ _))
  have hbaseH : hasHttpOnlySeg (CookieService.cookiePairPart k v ++ concatAll
      [CookieService.expiresPart (';' :: strToLC " Expires=") now opts.expires,
       CookieService.pathPart (';' :: strToLC " Path=") (';' :: strToLC " Path=/")
         opts.path,
       CookieService.domainPart (';' :: strToLC " Domain=") opts.domain,
       CookieService.securePart (';' :: strToLC " Secure") opts.secure,
       CookieService.sameSitePart (';' :: strToLC " SameSite=")
         (fun ss => capitalizeFirst (sameSiteLower ss)) opts.sameSite]) = false :=
    hasHttpOnlySeg_parts _ _ hpair
      (directives_httponly_ok now opts _ _ _ _ _ _ _
        (by decide) (by decide) (by decide) (by decide) rfl
        (by decide) (by decide) rfl (by decide) (by decide)
        (fun m => by cases m <;> decide) hpath hdom)
  have hbaseS : hasHttpOnlySeg (CookieService.cookiePairPart k v ++ concatAll
      [CookieService.expiresPart (';' :: strToLC " expires=") now opts.expires,
       CookieService.pathPart (';' :: strToLC " path=") (';' :: strToLC " path=/")
         opts.path,
       CookieService.domainPart (';' :: strToLC " domain=") opts.domain,
       CookieService.securePart (';' :: strToLC " secure") opts.secure,
       CookieService.sameSitePart (';' :: strToLC " samesite=") sameSiteLower
         opts.sameSite]) = false :=
    hasHttpOnlySeg_parts _ _ hpair
      (directives_httponly_ok now opts _ _ _ _ _ _ _
        (by decide) (by decide) (by decide) (by decide) rfl
        (by decide) (by decide) rfl (by decide) (by decide)
        (fun m => by cases m <;> decide) hpath hdom)
  constructor
  · cases hho : opts.httpOnly with
    | true =>
      have hsH : CookieService.createSetCookieHeader now k v opts =
          (CookieService.cookiePairPart k v ++ concatAll
            [CookieService.expiresPart (';' :: strToLC " Expires=") now opts.expires,
             CookieService.pathPart (';' :: strToLC " Path=")
               (';' :: strToLC " Path=/") opts.path,
             CookieService.domainPart (';' :: strToLC " Domain=") opts.domain,
             CookieService.securePart (';' :: strToLC " Secure") opts.secure,
             CookieService.sameSitePart (';' :: strToLC " SameSite=")
               (fun ss => capitalizeFirst (sameSiteLower ss)) opts.sameSite]) ++
            strToLC "; HttpOnly" := by
        unfold CookieService.createSetCookieHeader
        rw [if_pos hho]
        simp only [concatAll, List.foldr_cons, List.foldr_nil, List.append_assoc,
          List.append_nil]
        rfl
      rw [hsH, hasHttpOnlySeg_append_httponly]
    | false =>
      have hsH : CookieService.createSetCookieHeader now k v opts =
          CookieService.cookiePairPart k v ++ concatAll
            [CookieService.expiresPart (';' :: strToLC " Expires=") now opts.expires,
             CookieService.pathPart (';' :: strToLC " Path=")
               (';' :: strToLC " Path=/") opts.path,
             CookieService.domainPart (';' :: strToLC " Domain=") opts.domain,
             CookieService.securePart (';' :: strToLC " Secure") opts.secure,
             CookieService.sameSitePart (';' :: strToLC " SameSite=")
               (fun ss => capitalizeFirst (sameSiteLower ss)) opts.sameSite] := by
        unfold CookieService.createSetCookieHeader
        rw [if_neg (by simp [hho])]
        simp only [concatAll, List.foldr_cons, List.foldr_nil, List.append_assoc,
          List.append_nil]
        rfl
      rw [hsH, hbaseH]
  · have hsS : CookieService.setCookieString now k v opts =
        CookieService.cookiePairPart k v ++ concatAll
          [CookieService.expiresPart (';' :: strToLC " expires=") now opts.expires,
           CookieService.pathPart (';' :: strToLC " path=")
             (';' :: strToLC " path=/") opts.path,
           CookieService.domainPart (';' :: strToLC " domain=") opts.domain,
           CookieService.securePart (';' :: strToLC " secure") opts.secure,
           CookieService.sameSitePart (';' :: strToLC " samesite=") sameSiteLower
             opts.sameSite] := by
      unfold CookieService.setCookieString
      simp only [concatAll, List.foldr_cons, List.foldr_nil, List.append_assoc,
        List.append_nil]
      rfl
    rw [hsS, hbaseS]

theorem C8_httponly_witness :
    hasHttpOnlySeg (CookieService.createSetCookieHeader 0 (strToLC "a")
        (JsonValue.str (strToLC "b")) { httpOnly := true }) = true ∧
    hasHttpOnlySeg (CookieService.setCookieString 0 (strToLC "a")
        (JsonValue.str (strToLC "b")) { httpOnly := true }) = false :=
  C8_httponly 0 (strToLC "a") (JsonValue.str (strToLC "b")) { httpOnly := true }
    (fun _ hp => nomatch hp) (fun _ hq => nomatch hq)
